import Mathlib

/-!
# go-ice: staking ledger, election, consensus round driver and node backends

A shallow embedding of the parts of `iceming123/go-ice` that the hybrid
consensus specification talks about, followed by the properties proved
about them.

* `src/core/vm` : the staking ledger (`ImpawnImpl`), of which the repository
  slice contains the test `TestDeposit` only.
* `src/ice/metrics.go` : the metered message stream.
* `src/ice/api_backend.go` : the full-node API backend.
* `src/les/api_backend.go` : the light-client API backend.
* `src/ice/backend.go` : the construction of the full node (`New`).
* `src/tests/gen_btheader.go` : the JSON codec of the block-test header.
-/

namespace GoIce

/-- One octet of stored or transmitted data. -/
abbrev Byte := Fin 256

/-- A byte string (`[]byte`). -/
abbrev Bytes := List Byte

/-- A 20-byte account address (`common.Address`), kept as its byte string. -/
abbrev Address := Bytes

/-! ## Staking ledger -/

/-- Modelled from the spec: the error taxonomy of section 7 as far as the
staking ledger raises it (the Go type behind `NewImpawnImpl` is not part of
the available sources). `NotFound` is the lookup failure of section 6. -/
inductive StakingError where
  | CorruptLedger
  | BelowMinimumStake
  | InvalidPublicKey
  | LockedStake
  | NotFound
deriving DecidableEq, Repr

deriving instance DecidableEq for Except

/-- Modelled from the spec: the StakingAccount record of section 3 (the Go
struct is missing from the sources): address, public key, deposit (unsigned
big integer), delegate flag, first eligible epoch, lock height and fee. -/
structure StakingAccount where
  address : Address
  publicKey : Bytes
  depositValue : Nat
  isDelegate : Bool
  epochFirstEligible : Nat
  lockHeight : Nat
  fee : Nat
deriving DecidableEq, Repr

/-- Modelled from the spec: the StakingLedger of section 3, an ordered
collection of StakingAccount records keyed by address (the Go type
`ImpawnImpl` is missing from the sources). -/
structure ImpawnImpl where
  accounts : List StakingAccount
deriving DecidableEq, Repr

/-- Modelled from the spec: `NewImpawnImpl()` of `TestDeposit`, the freshly
constructed (empty) ledger. -/
def NewImpawnImpl : ImpawnImpl := ⟨[]⟩

/-- Modelled from the spec: the storage layer of section 6, `get(key) -> bytes`
and `set(key, bytes)`, keyed by address. -/
abbrev Storage := Address → Bytes

/-- Storage read, `get(key)`. -/
def Storage.get (s : Storage) (key : Address) : Bytes := s key

/-- Storage write, `set(key, bytes)`. -/
def Storage.set (s : Storage) (key : Address) (v : Bytes) : Storage :=
  fun k => if k = key then v else s k

/-- Worker of `putUvarint`: base-128 groups, least significant first, each
group but the last carrying the continuation bit. The first argument bounds
the number of groups. -/
def putUvarintAux : Nat → Nat → Bytes
  | 0, n => [⟨n % 128, by omega⟩]
  | fuel + 1, n =>
    if n < 128 then [⟨n % 128, by omega⟩]
    else ⟨128 + n % 128, by omega⟩ :: putUvarintAux fuel (n / 128)

/-- Modelled from the spec: the length prefix of the persisted state layout
(section 6), written as an unsigned base-128 varint. -/
def putUvarint (n : Nat) : Bytes := putUvarintAux n n

/-- Reads one varint off the front of a byte string. -/
def getUvarint : Bytes → Option (Nat × Bytes)
  | [] => none
  | b :: rest =>
    if b.val < 128 then some (b.val, rest)
    else
      match getUvarint rest with
      | none => none
      | some (hi, rest') => some (b.val - 128 + 128 * hi, rest')

/-- A length-prefixed byte string. -/
def putBytes (bs : Bytes) : Bytes := putUvarint bs.length ++ bs

/-- Reads a length-prefixed byte string. -/
def getBytes (bs : Bytes) : Option (Bytes × Bytes) :=
  match getUvarint bs with
  | none => none
  | some (n, rest) => if rest.length < n then none else some (rest.take n, rest.drop n)

/-- A boolean as one byte. -/
def putBool (b : Bool) : Bytes := [if b then 1 else 0]

/-- Reads a boolean; any byte other than 0 or 1 is a schema violation. -/
def getBool : Bytes → Option (Bool × Bytes)
  | [] => none
  | b :: rest => if b = 0 then some (false, rest) else if b = 1 then some (true, rest) else none

/-- Modelled from the spec: one serialized StakingAccount record (section 6),
its fields in declaration order. -/
def encodeAccount (a : StakingAccount) : Bytes :=
  putBytes a.address ++ (putBytes a.publicKey ++ (putUvarint a.depositValue ++
    (putBool a.isDelegate ++ (putUvarint a.epochFirstEligible ++
      (putUvarint a.lockHeight ++ putUvarint a.fee)))))

/-- Reads one serialized StakingAccount record off the front of a byte
string. -/
def decodeAccount (bs : Bytes) : Option (StakingAccount × Bytes) :=
  match getBytes bs with
  | none => none
  | some (address, r1) =>
  match getBytes r1 with
  | none => none
  | some (publicKey, r2) =>
  match getUvarint r2 with
  | none => none
  | some (depositValue, r3) =>
  match getBool r3 with
  | none => none
  | some (isDelegate, r4) =>
  match getUvarint r4 with
  | none => none
  | some (epochFirstEligible, r5) =>
  match getUvarint r5 with
  | none => none
  | some (lockHeight, r6) =>
  match getUvarint r6 with
  | none => none
  | some (fee, r7) =>
    some (⟨address, publicKey, depositValue, isDelegate, epochFirstEligible, lockHeight, fee⟩, r7)

/-- The records of a ledger, one after the other. -/
def encodeAccounts : List StakingAccount → Bytes
  | [] => []
  | a :: as => encodeAccount a ++ encodeAccounts as

/-- Reads the given number of records. -/
def decodeAccounts : Nat → Bytes → Option (List StakingAccount × Bytes)
  | 0, bs => some ([], bs)
  | n + 1, bs =>
    match decodeAccount bs with
    | none => none
    | some (a, rest) =>
      match decodeAccounts n rest with
      | none => none
      | some (as, rest') => some (a :: as, rest')

/-- Modelled from the spec: the persisted state layout of section 6, "a
length-prefixed sequence of serialized StakingAccount records". -/
def encodeLedger (l : ImpawnImpl) : Bytes :=
  putUvarint l.accounts.length ++ encodeAccounts l.accounts

/-- Decodes a stored ledger; bytes left over after the last record do not
belong to the schema. -/
def decodeLedger (bs : Bytes) : Option ImpawnImpl :=
  match getUvarint bs with
  | none => none
  | some (n, rest) =>
    match decodeAccounts n rest with
    | some (as, []) => some ⟨as⟩
    | _ => none

/-- Modelled from the spec: `Load(storage, systemAddress) -> Ledger` of
section 4.1; fails with `CorruptLedger` if the stored bytes do not decode to
the expected schema. -/
def ImpawnImpl.Load (storage : Storage) (systemAddress : Address) :
    Except StakingError ImpawnImpl :=
  match decodeLedger (storage.get systemAddress) with
  | none => .error .CorruptLedger
  | some l => .ok l

/-- Modelled from the spec: `Save(storage, systemAddress, ledger)` of section
4.1: serializes and writes back. -/
def ImpawnImpl.Save (l : ImpawnImpl) (storage : Storage) (systemAddress : Address) : Storage :=
  storage.set systemAddress (encodeLedger l)

/-- Modelled from the spec: the network parameters the staking ledger reads
(section 4.1): the minimum stake, the election lookahead, the validation of a
public key against an address, and the height until which a deposit made at
(epoch, round) stays locked. Their values live outside the sources. -/
structure StakingParams where
  minimumStake : Nat
  electionLookahead : Nat
  validateKey : Address → Bytes → Bool
  lockHeightFor : Nat → Nat → Nat

/-- Tops up the account stored under the address, leaving the others. -/
def topUp (address : Address) (depositValue firstEligible : Nat) :
    List StakingAccount → List StakingAccount
  | [] => []
  | a :: as =>
    if a.address = address then
      { a with depositValue := a.depositValue + depositValue,
               epochFirstEligible := firstEligible } :: as
    else a :: topUp address depositValue firstEligible as

/-- Modelled from the spec: `GetStakingAccount(address) -> StakingAccount |
NotFound` of section 6. -/
def ImpawnImpl.GetStakingAccount (l : ImpawnImpl) (address : Address) :
    Except StakingError StakingAccount :=
  match l.accounts.find? (fun a => decide (a.address = address)) with
  | none => .error .NotFound
  | some a => .ok a

/-- Modelled from the spec: `InsertOrUpdateAccount(epoch, round, address,
publicKey, depositValue, fee, isDelegate) -> Result` of section 4.1. Adds a new
account or tops up an existing one; fails with `BelowMinimumStake` if
`depositValue` is less than the network minimum and with `InvalidPublicKey`
if the key cannot be validated against `address`; on success the account is
eligible from `epoch + electionLookahead`. The result is the error (if any)
together with the ledger after the call. -/
def ImpawnImpl.InsertOrUpdateAccount (p : StakingParams) (l : ImpawnImpl)
    (epoch round : Nat) (address : Address) (publicKey : Bytes)
    (depositValue fee : Nat) (isDelegate : Bool) : Option StakingError × ImpawnImpl :=
  if depositValue < p.minimumStake then (some .BelowMinimumStake, l)
  else if p.validateKey address publicKey = false then (some .InvalidPublicKey, l)
  else
    match l.accounts.find? (fun a => decide (a.address = address)) with
    | some _ => (none, ⟨topUp address depositValue (epoch + p.electionLookahead) l.accounts⟩)
    | none =>
      (none, ⟨l.accounts ++ [{ address := address, publicKey := publicKey,
                               depositValue := depositValue, isDelegate := isDelegate,
                               epochFirstEligible := epoch + p.electionLookahead,
                               lockHeight := p.lockHeightFor epoch round, fee := fee }]⟩)

/-- Modelled from the spec: `InsertSAccount2(height, effectHeight, addr, pk,
val, fee, auto)` as `TestDeposit` calls it: the insert-or-update operation of
section 4.1 under the name the test uses. -/
def ImpawnImpl.InsertSAccount2 (p : StakingParams) (l : ImpawnImpl)
    (height effectHeight : Nat) (addr : Address) (pk : Bytes) (val fee : Nat)
    (auto : Bool) : Option StakingError × ImpawnImpl :=
  l.InsertOrUpdateAccount p height effectHeight addr pk val fee auto

/-- Decreases the deposit stored under the address, leaving the others. -/
def decreaseDeposit (address : Address) (amount : Nat) :
    List StakingAccount → List StakingAccount
  | [] => []
  | a :: as =>
    if a.address = address then { a with depositValue := a.depositValue - amount } :: as
    else a :: decreaseDeposit address amount as

/-- Modelled from the spec: `Withdraw(address, amount) -> Result` of section
4.1, evaluated at the current chain height: fails with `LockedStake` if
`lockHeight` has not elapsed, otherwise decreases `depositValue` (which is
unsigned and never goes below zero). An address without an account is
`NotFound`. The result is the error (if any) and the ledger after the call. -/
def ImpawnImpl.Withdraw (l : ImpawnImpl) (currentHeight : Nat) (address : Address)
    (amount : Nat) : Option StakingError × ImpawnImpl :=
  match l.accounts.find? (fun a => decide (a.address = address)) with
  | none => (some .NotFound, l)
  | some a =>
    if currentHeight < a.lockHeight then (some .LockedStake, l)
    else (none, ⟨decreaseDeposit address amount l.accounts⟩)

/-! ## Election -/

/-- Modelled from the spec: the ProofOfWorkChain collaborator of section 6,
`cumulativeWeightSince(address, boundaryHeight) -> weight`. -/
abbrev ProofOfWorkChain := Address → Nat → Nat

/-- Modelled from the spec: the election policy of section 4.2 (the package
`consensus/election` is missing from the sources): the epoch length, the
committee size, the least number of members, the minimum combined weight and
the combination `f(depositValue, powWeight)`. -/
structure ElectionParams where
  epochLength : Nat
  committeeSize : Nat
  minimumQuorumMembers : Nat
  minimumCombinedWeight : Nat
  effectiveWeight : Nat → Nat → Nat

/-- Modelled from the spec: a CommitteeMember of section 3. -/
structure CommitteeMember where
  coinbaseAddress : Address
  publicKey : Bytes
  votingWeight : Nat
deriving DecidableEq, Repr

/-- Modelled from the spec: a Committee of section 3, an epoch number and an
ordered sequence of members. -/
structure Committee where
  epochNumber : Nat
  members : List CommitteeMember
deriving DecidableEq, Repr

/-- Modelled from the spec: the failures of Election (sections 4.2 and 7). -/
inductive ElectionError where
  | InsufficientCommittee
  | UnknownEpoch
deriving DecidableEq, Repr

/-- Lexicographic order on byte strings, used to break ties on addresses. -/
def bytesLt : Bytes → Bytes → Bool
  | [], [] => false
  | [], _ :: _ => true
  | _ :: _, [] => false
  | a :: as, b :: bs => if a.val < b.val then true else if b.val < a.val then false else bytesLt as bs

/-- A candidate with its effective weight ranks before another when its
`(effectiveWeight, address)` pair is the larger one. -/
def ranksBefore (x y : Nat × StakingAccount) : Bool :=
  if y.1 < x.1 then true
  else if x.1 < y.1 then false
  else !(bytesLt x.2.address y.2.address)

/-- Insertion into a list ordered by `ranksBefore`. -/
def insertRanked (x : Nat × StakingAccount) : List (Nat × StakingAccount) → List (Nat × StakingAccount)
  | [] => [x]
  | y :: ys => if ranksBefore x y then x :: y :: ys else y :: insertRanked x ys

/-- Orders candidates by `(effectiveWeight, address)` descending. -/
def sortRanked : List (Nat × StakingAccount) → List (Nat × StakingAccount)
  | [] => []
  | x :: xs => insertRanked x (sortRanked xs)

/-- The epoch whose boundary is the last one at or below the height. -/
def epochOf (e : ElectionParams) (chainHeight : Nat) : Nat := chainHeight / e.epochLength

/-- The height of the boundary that opens the epoch. -/
def boundaryHeight (e : ElectionParams) (epoch : Nat) : Nat := epoch * e.epochLength

/-- Modelled from the spec: the weighted candidates of an epoch: the accounts
eligible at `epoch`, each with `effectiveWeight = f(depositValue, powWeight)`
where the proof-of-work weight is the one accumulated since the previous
boundary, ordered by `(effectiveWeight, address)` descending. -/
def weightedCandidates (e : ElectionParams) (l : ImpawnImpl) (pow : ProofOfWorkChain)
    (epoch : Nat) : List (Nat × StakingAccount) :=
  sortRanked ((l.accounts.filter (fun a => decide (a.epochFirstEligible ≤ epoch))).map
    (fun a => (e.effectiveWeight a.depositValue
      (pow a.address (boundaryHeight e (epoch - 1))), a)))

/-- Modelled from the spec: `CandidatesForEpoch(epoch) -> ordered list` of
section 4.1. -/
def ImpawnImpl.CandidatesForEpoch (e : ElectionParams) (l : ImpawnImpl)
    (pow : ProofOfWorkChain) (epoch : Nat) : List StakingAccount :=
  (weightedCandidates e l pow epoch).map Prod.snd

/-- Modelled from the spec: `SelectCommittee(chainHeight) -> Committee` of
section 4.2, steps 1 to 6: the candidates of the epoch at or below the height,
without those under the minimum combined weight, cut to the top
`committeeSize`, each with a voting weight equal to its effective weight;
`InsufficientCommittee` if fewer than `minimumQuorumMembers` qualify. -/
def SelectCommittee (e : ElectionParams) (l : ImpawnImpl) (pow : ProofOfWorkChain)
    (chainHeight : Nat) : Except ElectionError Committee :=
  let epoch := epochOf e chainHeight
  let qualified := (weightedCandidates e l pow epoch).filter
    (fun c => decide (e.minimumCombinedWeight ≤ c.1))
  if qualified.length < e.minimumQuorumMembers then .error .InsufficientCommittee
  else .ok { epochNumber := epoch,
             members := (qualified.take e.committeeSize).map
               (fun c => { coinbaseAddress := c.2.address, publicKey := c.2.publicKey,
                           votingWeight := c.1 }) }

/-- The total voting weight of a committee. -/
def Committee.totalVotingWeight (c : Committee) : Nat :=
  (c.members.map CommitteeMember.votingWeight).sum

/-- Modelled from the spec: the quorum test of section 4.2 step 5 and of the
glossary, "quorum = > 2/3 of total voting weight", in integers: the voters'
weight, tripled, exceeds twice the committee's total. -/
def Committee.reachesQuorum (c : Committee) (voters : List CommitteeMember) : Bool :=
  decide (2 * c.totalVotingWeight < 3 * (voters.map CommitteeMember.votingWeight).sum)

/-! ## Consensus round driver -/

/-- Modelled from the spec: the states of the round state machine of section
4.3 (the Go type `PbftAgent` is missing from the sources). -/
inductive RoundState where
  | Idle
  | Proposing
  | Collecting
  | Committing
  | ViewChanging
deriving DecidableEq, Repr

/-- Modelled from the spec: the ConsensusRound of section 3. A candidate
block is named by its hash, a vote by the address of the member casting it;
`collectedVotes` holds each member at most once. -/
structure ConsensusRound where
  height : Nat
  roundNumber : Nat
  proposerIndex : Nat
  candidateBlock : Option Nat
  collectedVotes : List Address
  state : RoundState
deriving DecidableEq, Repr

/-- Modelled from the spec: what the round driver reports (sections 4.3 and
7). -/
inductive DriverError where
  | HeightAlreadyFinalized
  | StalledConsensus
deriving DecidableEq, Repr

/-- Modelled from the spec: the round driver of section 4.3: the active
committee, the local member, the retry bound per height, the round in flight
and the blocks it has committed to the main chain, as (height, block) in
commit order. -/
structure PbftAgent where
  committee : Committee
  localMember : Address
  maxRounds : Nat
  round : ConsensusRound
  committed : List (Nat × Nat)
deriving DecidableEq, Repr

/-- Modelled from the spec: what reaches the round driver's input queue
(section 5) and its own internal steps: the start of a round, a proposal, a
vote, a round timeout, the view change that follows it, the commit that
follows quorum, and a height advance observed on the main chain. -/
inductive DriverEvent where
  | StartRound (block : Nat)
  | Proposal (height round : Nat) (sender : Address) (block : Nat)
  | Vote (member : Address) (height round : Nat)
  | Timeout
  | ViewChange
  | Commit
  | HeightAdvance (height : Nat)
deriving DecidableEq, Repr

/-- Round-robin proposer over the committee, seeded by height + round. -/
def proposerIndexFor (c : Committee) (height round : Nat) : Nat :=
  (height + round) % c.members.length

/-- The address of the designated proposer of a round. -/
def designatedProposer (c : Committee) (r : ConsensusRound) : Option Address :=
  (c.members.get? r.proposerIndex).map CommitteeMember.coinbaseAddress

/-- The fresh round of a height. -/
def freshRound (c : Committee) (height : Nat) : ConsensusRound :=
  { height := height, roundNumber := 0, proposerIndex := proposerIndexFor c height 0,
    candidateBlock := none, collectedVotes := [], state := .Idle }

/-- The members whose vote has been collected. -/
def votersOf (c : Committee) (votes : List Address) : List CommitteeMember :=
  c.members.filter (fun m => votes.contains m.coinbaseAddress)

/-- The voting weight accumulated by the collected votes. -/
def quorumWeight (c : Committee) (votes : List Address) : Nat :=
  ((votersOf c votes).map CommitteeMember.votingWeight).sum

/-- The round driver at startup: idle at the given height, nothing committed. -/
def PbftAgent.start (c : Committee) (localMember : Address) (maxRounds height : Nat) :
    PbftAgent :=
  { committee := c, localMember := localMember, maxRounds := maxRounds,
    round := freshRound c height, committed := [] }

/-- Modelled from the spec: one transition of the round state machine of
section 4.3, with the error it reports (if any).

* `StartRound`: `Idle -> Proposing` when the local member is the designated
  proposer, with the candidate block it built.
* `Proposal`: rejected with `HeightAlreadyFinalized` for a height below the
  one in flight; a valid proposal (this height and round, from the designated
  proposer) seen in `Idle` or `Proposing` enters `Collecting`.
* `Vote`: in `Collecting`, the first vote of a committee member for this
  (height, round) is collected, later ones are ignored; at quorum the round
  enters `Committing`.
* `Timeout`: `Proposing`/`Collecting -> ViewChanging`.
* `ViewChange`: next round number and proposer, back to `Proposing`; past the
  retry bound the height is reported as `StalledConsensus`.
* `Commit`: in `Committing`, the candidate is committed at this height, the
  round is reset at the next height, `Idle`.
* `HeightAdvance`: a higher height cancels the round, `Idle` at that height. -/
def PbftAgent.step (s : PbftAgent) : DriverEvent → Option DriverError × PbftAgent
  | .StartRound block =>
    if s.round.state = .Idle ∧ designatedProposer s.committee s.round = some s.localMember then
      (none, { s with round := { s.round with state := .Proposing, candidateBlock := some block } })
    else (none, s)
  | .Proposal height round sender block =>
    if height < s.round.height then (some .HeightAlreadyFinalized, s)
    else if height = s.round.height ∧ round = s.round.roundNumber
        ∧ designatedProposer s.committee s.round = some sender
        ∧ (s.round.state = .Idle ∨ s.round.state = .Proposing) then
      (none, { s with round := { s.round with state := .Collecting, candidateBlock := some block } })
    else (none, s)
  | .Vote member height round =>
    if s.round.state = .Collecting ∧ height = s.round.height ∧ round = s.round.roundNumber
        ∧ member ∈ s.committee.members.map CommitteeMember.coinbaseAddress
        ∧ member ∉ s.round.collectedVotes then
      let votes := member :: s.round.collectedVotes
      if s.committee.reachesQuorum (votersOf s.committee votes) then
        (none, { s with round := { s.round with collectedVotes := votes, state := .Committing } })
      else (none, { s with round := { s.round with collectedVotes := votes } })
    else (none, s)
  | .Timeout =>
    if s.round.state = .Proposing ∨ s.round.state = .Collecting then
      (none, { s with round := { s.round with state := .ViewChanging } })
    else (none, s)
  | .ViewChange =>
    if s.round.state = .ViewChanging then
      if s.maxRounds ≤ s.round.roundNumber + 1 then (some .StalledConsensus, s)
      else
        (none, { s with round :=
          { s.round with roundNumber := s.round.roundNumber + 1,
                         proposerIndex := proposerIndexFor s.committee s.round.height
                           (s.round.roundNumber + 1),
                         candidateBlock := none, collectedVotes := [], state := .Proposing } })
    else (none, s)
  | .Commit =>
    match s.round.state, s.round.candidateBlock with
    | .Committing, some block =>
      (none, { s with round := freshRound s.committee (s.round.height + 1),
                      committed := s.committed ++ [(s.round.height, block)] })
    | _, _ => (none, s)
  | .HeightAdvance height =>
    if s.round.height < height then (none, { s with round := freshRound s.committee height })
    else (none, s)

/-- The states the round driver can be in: the start state and whatever a
sequence of events leads to from there. -/
inductive PbftAgent.Reachable : PbftAgent → Prop where
  | start (c : Committee) (localMember : Address) (maxRounds height : Nat) :
      PbftAgent.Reachable (PbftAgent.start c localMember maxRounds height)
  | step (s : PbftAgent) (e : DriverEvent) :
      PbftAgent.Reachable s → PbftAgent.Reachable (s.step e).2

/-- The blocks committed at a height. -/
def PbftAgent.committedAt (s : PbftAgent) (height : Nat) : List Nat :=
  (s.committed.filter (fun hb => decide (hb.1 = height))).map Prod.snd

/-! ## Metered message stream (`ice/metrics.go`) -/

/-- A registered meter (`metrics.NewRegisteredMeter(name, nil)`), known by the
name it is registered under. -/
structure Meter where
  name : String
deriving DecidableEq, Repr

def propTxnInPacketsMeter : Meter := ⟨"ice/prop/txns/in/packets"⟩
def propTxnInTrafficMeter : Meter := ⟨"ice/prop/txns/in/traffic"⟩
def propFtnInPacketsMeter : Meter := ⟨"ice/prop/ftns/in/packets"⟩
def propFtnInTrafficMeter : Meter := ⟨"ice/prop/ftns/in/traffic"⟩
def propFHashInPacketsMeter : Meter := ⟨"ice/prop/fhashes/in/packets"⟩
def propFHashInTrafficMeter : Meter := ⟨"ice/prop/fhashes/in/traffic"⟩
def propSHashInPacketsMeter : Meter := ⟨"ice/prop/shashes/in/packets"⟩
def propSHashInTrafficMeter : Meter := ⟨"ice/prop/shashes/in/traffic"⟩
def propFBlockInPacketsMeter : Meter := ⟨"ice/prop/fblocks/in/packets"⟩
def propFBlockInTrafficMeter : Meter := ⟨"ice/prop/fblocks/in/traffic"⟩
def propSBlockInPacketsMeter : Meter := ⟨"ice/prop/sblocks/in/packets"⟩
def propSBlockInTrafficMeter : Meter := ⟨"ice/prop/sblocks/in/traffic"⟩
def propNodeInfoInPacketsMeter : Meter := ⟨"ice/prop/nodeinfo/in/packets"⟩
def propNodeInfoInTrafficMeter : Meter := ⟨"ice/prop/nodeinfo/in/traffic"⟩
def propNodeInfoHashInPacketsMeter : Meter := ⟨"ice/prop/nodeinfohash/in/packets"⟩
def propNodeInfoHashInTrafficMeter : Meter := ⟨"ice/prop/nodeinfohash/in/traffic"⟩
def reqFHeaderInPacketsMeter : Meter := ⟨"ice/req/headers/in/packets"⟩
def reqFHeaderInTrafficMeter : Meter := ⟨"ice/req/headers/in/traffic"⟩
def reqSHeaderInPacketsMeter : Meter := ⟨"ice/req/sheaders/in/packets"⟩
def reqSHeaderInTrafficMeter : Meter := ⟨"ice/req/sheaders/in/traffic"⟩
def reqFBodyInPacketsMeter : Meter := ⟨"ice/req/fbodies/in/packets"⟩
def reqFBodyInTrafficMeter : Meter := ⟨"ice/req/fbodies/in/traffic"⟩
def reqSBodyInPacketsMeter : Meter := ⟨"ice/req/sbodies/in/packets"⟩
def reqSBodyInTrafficMeter : Meter := ⟨"ice/req/sbodies/in/traffic"⟩
def reqStateInPacketsMeter : Meter := ⟨"ice/req/states/in/packets"⟩
def reqStateInTrafficMeter : Meter := ⟨"ice/req/states/in/traffic"⟩
def reqReceiptInPacketsMeter : Meter := ⟨"ice/req/receipts/in/packets"⟩
def reqReceiptInTrafficMeter : Meter := ⟨"ice/req/receipts/in/traffic"⟩
def getHeadInPacketsMeter : Meter := ⟨"ice/get/head/in/packets"⟩
def getHeadInTrafficMeter : Meter := ⟨"ice/get/head/in/traffic"⟩
def getBodyInPacketsMeter : Meter := ⟨"ice/get/bodies/in/packets"⟩
def getBodyInTrafficMeter : Meter := ⟨"ice/get/bodies/in/traffic"⟩
def getNodeInfoInPacketsMeter : Meter := ⟨"ice/get/nodeinfo/in/packets"⟩
def getNodeInfoInTrafficMeter : Meter := ⟨"ice/get/nodeinfo/in/traffic"⟩
def miscInPacketsMeter : Meter := ⟨"ice/misc/in/packets"⟩
def miscInTrafficMeter : Meter := ⟨"ice/misc/in/traffic"⟩

/-- The calls of `Meter.Mark` made so far, oldest first: the meter and the
`int64` count marked on it. -/
abbrev MeterLog := List (Meter × Int)

/-- A `p2p.Msg`: message code (`uint64`), payload size (`uint32`) and the
payload. -/
structure Msg where
  Code : Nat
  Size : Nat
  Payload : Bytes
deriving DecidableEq, Repr

/-- The message codes of the `ice` protocol that the meters tell apart. The
constants are declared in `ice/protocol.go`, which is not among the sources,
so their values are parameters. -/
structure ProtocolCodes where
  FastBlockHeadersMsg : Nat
  SnailBlockHeadersMsg : Nat
  FastBlockBodiesMsg : Nat
  SnailBlockBodiesMsg : Nat
  NodeDataMsg : Nat
  ReceiptsMsg : Nat
  NewFastBlockHashesMsg : Nat
  NewSnailBlockHashesMsg : Nat
  NewFastBlockMsg : Nat
  NewSnailBlockMsg : Nat
  TxMsg : Nat
  NewFruitMsg : Nat
  TbftNodeInfoMsg : Nat
  TbftNodeInfoHashMsg : Nat
  GetTbftNodeInfoMsg : Nat
  GetFastBlockHeadersMsg : Nat
  GetFastBlockBodiesMsg : Nat
  GetSnailBlockHeadersMsg : Nat
  GetSnailBlockBodiesMsg : Nat

/-- A `p2p.MsgReadWriter`: either a transport stream, given by what its next
`ReadMsg` returns (message and error, `none` for a nil error), or a
`meteredMsgReadWriter` wrapping a message stream, with the protocol version
that selects the meters. -/
inductive MsgReadWriter where
  | conn (next : Msg × Option String)
  | meteredMsgReadWriter (MsgReadWriter : MsgReadWriter) (version : Int)
deriving DecidableEq, Repr

/-- The function `newMeteredMsgWriter`: wraps a p2p MsgReadWriter with metering
support; if the metrics system is disabled (`metrics.Enabled` false) it
returns the original object. The struct literal leaves `version` at its zero
value. -/
def newMeteredMsgWriter (Enabled : Bool) (rw : MsgReadWriter) : MsgReadWriter :=
  if !Enabled then rw
  else .meteredMsgReadWriter rw 0

/-- The method `meteredMsgReadWriter.Init`: sets the protocol version used by
the stream. A transport stream has no such method and is left as it is. -/
def MsgReadWriter.Init : MsgReadWriter → Int → MsgReadWriter
  | .conn next, _ => .conn next
  | .meteredMsgReadWriter inner _, version => .meteredMsgReadWriter inner version

/-- The meters `ReadMsg` selects for an inbound message: the `switch` over
`msg.Code`, first matching case wins, `misc` by default. -/
def inMeters (pc : ProtocolCodes) (msg : Msg) : Meter × Meter :=
  if msg.Code = pc.FastBlockHeadersMsg then (reqFHeaderInPacketsMeter, reqFHeaderInTrafficMeter)
  else if msg.Code = pc.SnailBlockHeadersMsg then (reqSHeaderInPacketsMeter, reqSHeaderInTrafficMeter)
  else if msg.Code = pc.FastBlockBodiesMsg then (reqFBodyInPacketsMeter, reqFBodyInTrafficMeter)
  else if msg.Code = pc.SnailBlockBodiesMsg then (reqSBodyInPacketsMeter, reqSBodyInTrafficMeter)
  else if msg.Code = pc.NodeDataMsg then (reqStateInPacketsMeter, reqStateInTrafficMeter)
  else if msg.Code = pc.ReceiptsMsg then (reqReceiptInPacketsMeter, reqReceiptInTrafficMeter)
  else if msg.Code = pc.NewFastBlockHashesMsg then (propFHashInPacketsMeter, propFHashInTrafficMeter)
  else if msg.Code = pc.NewSnailBlockHashesMsg then (propSHashInPacketsMeter, propSHashInTrafficMeter)
  else if msg.Code = pc.NewFastBlockMsg then (propFBlockInPacketsMeter, propFBlockInTrafficMeter)
  else if msg.Code = pc.NewSnailBlockMsg then (propSBlockInPacketsMeter, propSBlockInTrafficMeter)
  else if msg.Code = pc.TxMsg then (propTxnInPacketsMeter, propTxnInTrafficMeter)
  else if msg.Code = pc.NewFruitMsg then (propFtnInPacketsMeter, propFtnInTrafficMeter)
  else if msg.Code = pc.TbftNodeInfoMsg then (propNodeInfoInPacketsMeter, propNodeInfoInTrafficMeter)
  else if msg.Code = pc.TbftNodeInfoHashMsg then (propNodeInfoHashInPacketsMeter, propNodeInfoHashInTrafficMeter)
  else if msg.Code = pc.GetTbftNodeInfoMsg then (getNodeInfoInPacketsMeter, getNodeInfoInTrafficMeter)
  else if msg.Code = pc.GetFastBlockHeadersMsg then (getHeadInPacketsMeter, getHeadInTrafficMeter)
  else if msg.Code = pc.GetFastBlockBodiesMsg then (getHeadInPacketsMeter, getHeadInTrafficMeter)
  else if msg.Code = pc.GetSnailBlockHeadersMsg then (getBodyInPacketsMeter, getBodyInTrafficMeter)
  else if msg.Code = pc.GetSnailBlockBodiesMsg then (getBodyInPacketsMeter, getBodyInTrafficMeter)
  else (miscInPacketsMeter, miscInTrafficMeter)

/-- The method `ReadMsg`. On a transport stream it returns what the stream
delivers. On a `meteredMsgReadWriter` it reads from the wrapped stream, short
circuits in case of an error, and otherwise marks the packets meter with 1
and the traffic meter with `int64(msg.Size)` before returning the message. -/
def MsgReadWriter.ReadMsg (pc : ProtocolCodes) :
    MsgReadWriter → MeterLog → (Msg × Option String) × MeterLog
  | .conn next, log => (next, log)
  | .meteredMsgReadWriter inner _, log =>
    match MsgReadWriter.ReadMsg pc inner log with
    | ((msg, err), log1) =>
      if err ≠ none then ((msg, err), log1)
      else
        let (packets, traffic) := inMeters pc msg
        ((msg, err), log1 ++ [(packets, 1), (traffic, (msg.Size : Int))])

/-! ## Full-node API backend (`ice/api_backend.go`) -/

/-- A `map[string]interface{}` as the committee queries return it, with
`none` for the nil map. -/
abbrev CommitteeInfo := Option (List (String × String))

/-- The block-number tags of package `rpc`, which is not among the sources:
their `int64` values are parameters. -/
structure RpcTags where
  PendingBlockNumber : Int
  LatestBlockNumber : Int

/-- The part of `elect.Election` (package `consensus/election`, not among the
sources) that `GetCommittee` calls: `GetCommitteeById(id *big.Int)`, which has
a single result. -/
structure Election where
  GetCommitteeById : Int → CommitteeInfo

/-- The part of the round driver that `GetCommittee` calls:
`CommitteeNumber()`, a `uint64`. -/
structure AgentHandle where
  CommitteeNumber : Nat

/-- A 32-byte hash (`common.Hash`), kept as its byte string. -/
abbrev Hash := Bytes

/-- A fast-chain header (`types.Header`), as far as the backend reads it: the
block number, the state root and the parent hash. -/
structure Header where
  Number : Nat
  Root : Hash
  ParentHash : Hash
deriving DecidableEq, Repr

/-- A fast-chain block (`types.Block`): its header and its transactions. -/
structure Block where
  header : Header
  transactions : List Bytes
deriving DecidableEq, Repr

/-- A state database handle (`state.StateDB`), known by the root it was opened
at. -/
structure StateDB where
  root : Hash
deriving DecidableEq, Repr

/-- What a call comes to: it returns a value, or it panics (a method called
on a nil pointer). -/
inductive Outcome (α : Type) where
  | returns (value : α)
  | panics
deriving DecidableEq, Repr

/-- The call `block.Header()` on a `*types.Block`: a copy of the block's
header; on the nil pointer the call panics. -/
def Block.Header : Option Block → Outcome Header
  | none => .panics
  | some block => .returns block.header

/-- The conversion `uint64(blockNr)` of an `int64` block number. -/
def uint64 (blockNr : Int) : Nat := (blockNr % 2 ^ 64).toNat

/-- The part of `core.BlockChain` (not among the sources) that the backend
calls. Pointers are options, `none` for nil; `State` and `StateAt` return a
state and an error. -/
structure BlockChain where
  CurrentBlock : Option Block
  GetHeaderByNumber : Nat → Option Header
  GetHeaderByHash : Hash → Option Header
  GetBlockByNumber : Nat → Option Block
  State : Option StateDB × Option String
  StateAt : Hash → Option StateDB × Option String

/-- The part of `miner.Miner` (not among the sources) that the backend calls:
`PendingBlock()`. -/
structure Miner where
  PendingBlock : Option Block

/-- The fields of `Icechain` that the API backend reads. -/
structure Icechain where
  election : Election
  agent : AgentHandle
  blockchain : BlockChain
  miner : Miner

/-- The method `Icechain.BlockChain()`. -/
def Icechain.BlockChain (s : Icechain) : BlockChain := s.blockchain

/-- The struct `ICEAPIBackend`, which implements the API backend for full
nodes. -/
structure ICEAPIBackend where
  ice : Icechain

/-- The method `ICEAPIBackend.GetCommittee(number rpc.BlockNumber)`: the
committee of the agent's current committee number for `latest`, of
`number.Int64()` otherwise; the second component is the returned error. -/
def ICEAPIBackend.GetCommittee (rpc : RpcTags) (b : ICEAPIBackend) (number : Int) :
    CommitteeInfo × Option String :=
  if number = rpc.LatestBlockNumber then
    (b.ice.election.GetCommitteeById ((b.ice.agent.CommitteeNumber % 2 ^ 64 : Nat) : Int), none)
  else (b.ice.election.GetCommitteeById number, none)

/-- The method `ICEAPIBackend.HeaderByNumber`: the header of the miner's
pending block for `pending`, of the fast chain's current block for `latest`,
the fast chain's header at `uint64(blockNr)` otherwise; the error is nil on
every path. -/
def ICEAPIBackend.HeaderByNumber (rpc : RpcTags) (b : ICEAPIBackend) (blockNr : Int) :
    Outcome (Option Header × Option String) :=
  if blockNr = rpc.PendingBlockNumber then
    match Block.Header b.ice.miner.PendingBlock with
    | .panics => .panics
    | .returns header => .returns (some header, none)
  else if blockNr = rpc.LatestBlockNumber then
    match Block.Header b.ice.blockchain.CurrentBlock with
    | .panics => .panics
    | .returns header => .returns (some header, none)
  else .returns (b.ice.blockchain.GetHeaderByNumber (uint64 blockNr), none)

/-- The method `ICEAPIBackend.HeaderByHash`. -/
def ICEAPIBackend.HeaderByHash (b : ICEAPIBackend) (hash : Hash) :
    Option Header × Option String :=
  (b.ice.blockchain.GetHeaderByHash hash, none)

/-- The method `ICEAPIBackend.BlockByNumber`: only the snail chain has a miner,
so `pending` returns the fast chain's current block, as `latest` does; any
other number the fast block at `uint64(blockNr)`. -/
def ICEAPIBackend.BlockByNumber (rpc : RpcTags) (b : ICEAPIBackend) (blockNr : Int) :
    Option Block × Option String :=
  if blockNr = rpc.PendingBlockNumber then
    (b.ice.blockchain.CurrentBlock, none)
  else if blockNr = rpc.LatestBlockNumber then
    (b.ice.blockchain.CurrentBlock, none)
  else (b.ice.blockchain.GetBlockByNumber (uint64 blockNr), none)

/-- The method `ICEAPIBackend.StateAndHeaderByNumber`. For `pending` it takes
the state from `blockchain.State()`, dropping that call's error, and the
header from `blockchain.CurrentBlock()`. Otherwise it resolves the header with
`HeaderByNumber`, returns `nil, nil, err` if the header is nil or `err` is
not, and else opens the state at the header's root. -/
def ICEAPIBackend.StateAndHeaderByNumber (rpc : RpcTags) (b : ICEAPIBackend) (blockNr : Int) :
    Outcome (Option StateDB × Option Header × Option String) :=
  if blockNr = rpc.PendingBlockNumber then
    match Block.Header b.ice.blockchain.CurrentBlock with
    | .panics => .panics
    | .returns header => .returns (b.ice.blockchain.State.1, some header, none)
  else
    match b.HeaderByNumber rpc blockNr with
    | .panics => .panics
    | .returns (some header, none) =>
      .returns ((b.ice.BlockChain.StateAt header.Root).1, some header,
        (b.ice.BlockChain.StateAt header.Root).2)
    | .returns (_, err) => .returns (none, none, err)

/-- The method `ICEAPIBackend.StateAndHeaderByHash`. -/
def ICEAPIBackend.StateAndHeaderByHash (b : ICEAPIBackend) (hash : Hash) :
    Option StateDB × Option Header × Option String :=
  match b.HeaderByHash hash with
  | (_, some err) => (none, none, some err)
  | (none, none) => (none, none, some "header for hash not found")
  | (some header, none) =>
    ((b.ice.BlockChain.StateAt header.Root).1, some header,
      (b.ice.BlockChain.StateAt header.Root).2)

/-- An `rpc.BlockNumberOrHash` (package `rpc` is not among the sources), as
its accessors show it: `Number` is what `Number()` returns when its `ok` is
true and `Hash` what `Hash()` returns when its `ok` is true, `none` when `ok`
is false. -/
structure BlockNumberOrHash where
  Number : Option Int
  Hash : Option Hash
deriving DecidableEq, Repr

/-- The method `ICEAPIBackend.StateAndHeaderByNumberOrHash`. -/
def ICEAPIBackend.StateAndHeaderByNumberOrHash (rpc : RpcTags) (b : ICEAPIBackend)
    (blockNrOrHash : BlockNumberOrHash) :
    Outcome (Option StateDB × Option Header × Option String) :=
  match blockNrOrHash.Number with
  | some blockNr => b.StateAndHeaderByNumber rpc blockNr
  | none =>
    match blockNrOrHash.Hash with
    | some hash => .returns (b.StateAndHeaderByHash hash)
    | none => .returns (none, none, some "invalid arguments; neither block nor hash specified")

/-! ## Light-client API backend (`les/api_backend.go`) -/

/-- A snail-chain header (`types.SnailHeader`), as far as it is named here. -/
structure SnailHeader where
  Number : Nat
  ParentHash : Hash
deriving DecidableEq, Repr

/-- A snail-chain block (`types.SnailBlock`). -/
structure SnailBlock where
  header : SnailHeader
deriving DecidableEq, Repr

/-- The state of the light node (`LightICE`) that the backend holds: its
network id and genesis hash stand for the rest. -/
structure LightICE where
  networkId : Nat
  genesisHash : Hash
deriving DecidableEq, Repr

/-- The struct `LesApiBackend`. -/
structure LesApiBackend where
  ice : LightICE
deriving DecidableEq, Repr

/-- The error `NotSupportOnLes`. -/
def NotSupportOnLes : String := "not support on les protocol"

/-- The method `LesApiBackend.SnailHeaderByNumber`. -/
def LesApiBackend.SnailHeaderByNumber (_b : LesApiBackend) (_blockNr : Int) :
    Option SnailHeader × Option String :=
  (none, some NotSupportOnLes)

/-- The method `LesApiBackend.SnailBlockByNumber`. -/
def LesApiBackend.SnailBlockByNumber (_b : LesApiBackend) (_blockNr : Int) :
    Option SnailBlock × Option String :=
  (none, some NotSupportOnLes)

/-- The method `LesApiBackend.GetFruit`. -/
def LesApiBackend.GetFruit (_b : LesApiBackend) (_fastblockHash : Hash) :
    Option SnailBlock × Option String :=
  (none, some NotSupportOnLes)

/-- The method `LesApiBackend.StateAndHeaderByNumberOrHash`. -/
def LesApiBackend.StateAndHeaderByNumberOrHash (_b : LesApiBackend)
    (_blockNrOrHash : BlockNumberOrHash) : Option StateDB × Option Header × Option String :=
  (none, none, some NotSupportOnLes)

/-- The method `LesApiBackend.StateAndHeaderByHash`. -/
def LesApiBackend.StateAndHeaderByHash (_b : LesApiBackend) (_hash : Hash) :
    Option StateDB × Option Header × Option String :=
  (none, none, some NotSupportOnLes)

/-- The method `LesApiBackend.GetSnailBlock`. -/
def LesApiBackend.GetSnailBlock (_b : LesApiBackend) (_blockHash : Hash) :
    Option SnailBlock × Option String :=
  (none, some NotSupportOnLes)

/-- The method `LesApiBackend.GetCommittee`. -/
def LesApiBackend.GetCommittee (_b : LesApiBackend) (_id : Int) :
    CommitteeInfo × Option String :=
  (none, some NotSupportOnLes)

/-! ## Full-node construction (`ice/backend.go`) -/

/-- The sync modes of package `ice/downloader`, whose declaration is not among
the sources: the value of `LightSync` and the method `SyncMode.IsValid` are
parameters. -/
structure SyncModes where
  LightSync : Int
  IsValid : Int → Bool

/-- The fields of `Config` that the head of `New` reads. -/
structure Config where
  SyncMode : Int
  DatabaseCache : Int
  DatabaseHandles : Int
  NetworkId : Nat

/-- A chain database handle (`icedb.Database`), known by the name it was
opened under. -/
structure Database where
  name : String
deriving DecidableEq, Repr

/-- The part of `node.ServiceContext` that `CreateDB` calls: `OpenDatabase(name,
cache, handles)`, which returns a database and an error. -/
structure ServiceContext where
  OpenDatabase : String → Int → Int → Option Database × Option String

/-- The function `CreateDB`: creates the chain database. The second component
lists the databases the call opened through the service context. The
metering of a LevelDB handle leaves the handle as it is. -/
def CreateDB (ctx : ServiceContext) (config : Config) (name : String) :
    (Option Database × Option String) × List String :=
  match ctx.OpenDatabase name config.DatabaseCache config.DatabaseHandles with
  | (_, some err) => ((none, some err), [name])
  | (db, none) => ((db, none), [name])

/-- The function `New`: creates a new Icechain object. It refuses the light
sync mode and any invalid sync mode, then creates the chain database
`chaindata`; what follows (genesis setup, the two chains, the pools, the
election, the agent, the protocol manager, the miner and the API backend)
calls into packages that are not among the sources and is the parameter
`assemble`. The second component lists the databases opened. -/
def New (modes : SyncModes)
    (assemble : Config → Option Database → Option Icechain × Option String)
    (ctx : ServiceContext) (config : Config) :
    (Option Icechain × Option String) × List String :=
  if config.SyncMode = modes.LightSync then
    ((none, some "can't run ice.Icechain in light sync mode, use les.LightIcechain"), [])
  else if !modes.IsValid config.SyncMode then
    ((none, some ("invalid sync mode " ++ toString config.SyncMode)), [])
  else
    match CreateDB ctx config "chaindata" with
    | ((_, some err), opened) => ((none, some err), opened)
    | ((chainDb, none), opened) => (assemble config chainDb, opened)

/-! ## Block-test header JSON codec (`tests/gen_btheader.go`) -/

/-- A bloom filter (`types.Bloom`, 256 bytes), kept as its byte string. -/
abbrev Bloom := Bytes

/-- A JSON value as it stands in a member of an object: `null`, a string, or
any other value (a number, a boolean, an array, an object), kept as its
text. -/
inductive JsonValue where
  | null
  | string (s : String)
  | other (raw : String)
deriving DecidableEq, Repr

/-- A JSON text as `encoding/json` reads it when the target is a struct: a
text it rejects before looking at any member (a syntax error, or a value that
is neither an object nor `null`), with the error reported; the literal
`null`; or an object, its members in the order of the text. -/
inductive JsonDocument where
  | invalid (err : String)
  | null
  | object (members : List (String × JsonValue))
deriving DecidableEq, Repr

/-- The members of a JSON text; none unless it is an object. -/
def JsonDocument.members : JsonDocument → List (String × JsonValue)
  | .object members => members
  | _ => []

/-- What `encoding/json` makes of a member's value when it decodes it into a
field: the decoded value; a type error, which it records while it goes on
with the next member; or an error returned by the unmarshalling method of the
field's type, which ends the decoding at once. -/
inductive Decoded (α : Type) where
  | ok (v : α)
  | saved (err : String)
  | failed (err : String)
deriving DecidableEq, Repr

/-- The JSON encodings of the field types of `btHeader`: `common.Hash`,
`types.Bloom`, `math.HexOrDecimal256`, `hexutil.Bytes` and
`math.HexOrDecimal64`, whose marshalling methods are in packages that are not
among the sources, and the case-insensitive key comparison of
`encoding/json`. They are parameters. A decoder is given the name of the
field and the member's value (never `null`). -/
structure HeaderCodecs where
  encodeHash : Hash → JsonValue
  decodeHash : String → JsonValue → Decoded Hash
  encodeBloom : Bloom → JsonValue
  decodeBloom : String → JsonValue → Decoded Bloom
  encodeBig : Int → JsonValue
  decodeBig : String → JsonValue → Decoded Int
  encodeBytes : Bytes → JsonValue
  decodeBytes : String → JsonValue → Decoded Bytes
  encodeUint64 : Nat → JsonValue
  decodeUint64 : String → JsonValue → Decoded Nat
  equalFold : String → String → Bool

/-- The struct `btHeader` as the generated code reads and writes it. The three
`*big.Int` fields are `none` for the nil pointer; `ExtraData` is a byte
string, nil and empty alike. -/
structure btHeader where
  CommitteeHash : GoIce.Hash
  SnailHash : GoIce.Hash
  SnailNumber : Option Int
  Bloom : GoIce.Bloom
  Number : Option Int
  Hash : GoIce.Hash
  ParentHash : GoIce.Hash
  ReceiptsRoot : GoIce.Hash
  StateRoot : GoIce.Hash
  TransactionsRoot : GoIce.Hash
  ExtraData : Bytes
  GasLimit : Nat
  GasUsed : Nat
  Timestamp : Option Int
deriving DecidableEq, Repr

/-- The zero value of `btHeader`. -/
def btHeader.zero : btHeader :=
  { CommitteeHash := List.replicate 32 0,
    SnailHash := List.replicate 32 0,
    SnailNumber := none,
    Bloom := List.replicate 256 0,
    Number := none,
    Hash := List.replicate 32 0,
    ParentHash := List.replicate 32 0,
    ReceiptsRoot := List.replicate 32 0,
    StateRoot := List.replicate 32 0,
    TransactionsRoot := List.replicate 32 0,
    ExtraData := [],
    GasLimit := 0,
    GasUsed := 0,
    Timestamp := none }

/-- The local struct of `UnmarshalJSON`, every field a pointer: `none` is the
nil pointer. -/
structure btHeaderDec where
  CommitteeHash : Option GoIce.Hash
  SnailHash : Option GoIce.Hash
  SnailNumber : Option Int
  Bloom : Option GoIce.Bloom
  Number : Option Int
  Hash : Option GoIce.Hash
  ParentHash : Option GoIce.Hash
  ReceiptsRoot : Option GoIce.Hash
  StateRoot : Option GoIce.Hash
  TransactionsRoot : Option GoIce.Hash
  ExtraData : Option Bytes
  GasLimit : Option Nat
  GasUsed : Option Nat
  Timestamp : Option Int
deriving DecidableEq, Repr

/-- The types the fields of the local structs are declared with. -/
inductive FieldKind where
  | hash
  | bloom
  | big
  | bytes
  | uint64
deriving DecidableEq, Repr

/-- The fields of the local structs in declaration order, each with its type.
The structs carry no tags, so the names are the keys of the JSON object. -/
def btHeaderFields : List (String × FieldKind) :=
  [("CommitteeHash", .hash),
   ("SnailHash", .hash),
   ("SnailNumber", .big),
   ("Bloom", .bloom),
   ("Number", .big),
   ("Hash", .hash),
   ("ParentHash", .hash),
   ("ReceiptsRoot", .hash),
   ("StateRoot", .hash),
   ("TransactionsRoot", .hash),
   ("ExtraData", .bytes),
   ("GasLimit", .uint64),
   ("GasUsed", .uint64),
   ("Timestamp", .big)]

/-- The field names in declaration order. -/
def btHeaderFieldNames : List String := btHeaderFields.map Prod.fst

/-- The type a field is declared with (for a name that is no field, which
never comes up, that of a byte string). -/
def kindOf (name : String) : FieldKind :=
  match btHeaderFields.find? (fun field => decide (field.1 = name)) with
  | some field => field.2
  | none => .bytes

/-- A pointer field under `json.Marshal`: `null` for the nil pointer, the
encoding of the value otherwise. -/
def encodePointer (encode : α → JsonValue) : Option α → JsonValue
  | none => .null
  | some v => encode v

/-- The method `btHeader.MarshalJSON`: copies the fourteen fields into the
local struct and marshals it, which gives the object of the fourteen fields
in declaration order; the second component is the error, nil. -/
def btHeader.MarshalJSON (c : HeaderCodecs) (b : btHeader) : JsonDocument × Option String :=
  (.object
    [("CommitteeHash", c.encodeHash b.CommitteeHash),
     ("SnailHash", c.encodeHash b.SnailHash),
     ("SnailNumber", encodePointer c.encodeBig b.SnailNumber),
     ("Bloom", c.encodeBloom b.Bloom),
     ("Number", encodePointer c.encodeBig b.Number),
     ("Hash", c.encodeHash b.Hash),
     ("ParentHash", c.encodeHash b.ParentHash),
     ("ReceiptsRoot", c.encodeHash b.ReceiptsRoot),
     ("StateRoot", c.encodeHash b.StateRoot),
     ("TransactionsRoot", c.encodeHash b.TransactionsRoot),
     ("ExtraData", c.encodeBytes b.ExtraData),
     ("GasLimit", c.encodeUint64 b.GasLimit),
     ("GasUsed", c.encodeUint64 b.GasUsed),
     ("Timestamp", encodePointer c.encodeBig b.Timestamp)],
   none)

/-- The field a key of the input is decoded into under `json.Unmarshal`: the
field of that very name, else the first field that matches the key without
regard to case; a key that matches no field is skipped. -/
def fieldFor (equalFold : String → String → Bool) (key : String) : Option String :=
  match btHeaderFieldNames.find? (fun name => decide (name = key)) with
  | some name => some name
  | none => btHeaderFieldNames.find? (fun name => equalFold name key)

/-- A decoded field value, whatever the type of the field. -/
inductive FieldValue where
  | bytes (b : Bytes)
  | big (v : Int)
  | uint (n : Nat)
deriving DecidableEq, Repr

/-- The byte string in a field value. -/
def FieldValue.asBytes : FieldValue → Option Bytes
  | .bytes b => some b
  | _ => none

/-- The big integer in a field value. -/
def FieldValue.asBig : FieldValue → Option Int
  | .big v => some v
  | _ => none

/-- The unsigned integer in a field value. -/
def FieldValue.asUint : FieldValue → Option Nat
  | .uint n => some n
  | _ => none

/-- A decoding result with its value wrapped. -/
def Decoded.wrap (f : α → β) : Decoded α → Decoded β
  | .ok v => .ok (f v)
  | .saved err => .saved err
  | .failed err => .failed err

/-- Decoding a member's value into a field of the given type and name. -/
def decodeKind (c : HeaderCodecs) : FieldKind → String → JsonValue → Decoded FieldValue
  | .hash, name, value => (c.decodeHash name value).wrap .bytes
  | .bloom, name, value => (c.decodeBloom name value).wrap .bytes
  | .big, name, value => (c.decodeBig name value).wrap .big
  | .bytes, name, value => (c.decodeBytes name value).wrap .bytes
  | .uint64, name, value => (c.decodeUint64 name value).wrap .uint

/-- The pointers of the local struct of `UnmarshalJSON` while it is being
filled, by field name: `none` is the nil pointer. -/
abbrev DecodeTarget := String → Option FieldValue

/-- The state of `json.Unmarshal` between two members: the struct being
filled and the first type error recorded so far. -/
structure DecodeState where
  target : DecodeTarget
  savedError : Option String

/-- Sets the pointer of one field. -/
def setField (target : DecodeTarget) (name : String) (v : Option FieldValue) : DecodeTarget :=
  fun n => if n = name then v else target n

/-- Records a type error unless one is recorded already. -/
def saveError (saved : Option String) (err : String) : Option String :=
  match saved with
  | some first => some first
  | none => some err

/-- One member under `json.Unmarshal`: a key that matches no field is skipped;
`null` sets the field's pointer to nil; any other value is decoded into the
field, where a type error is recorded and an error of the unmarshalling
method ends the decoding. -/
def storeMember (c : HeaderCodecs) (st : DecodeState) (key : String) (value : JsonValue) :
    Except String DecodeState :=
  match fieldFor c.equalFold key with
  | none => .ok st
  | some name =>
    if value = .null then .ok { st with target := setField st.target name none }
    else
      match decodeKind c (kindOf name) name value with
      | .ok v => .ok { st with target := setField st.target name (some v) }
      | .saved err => .ok { st with savedError := saveError st.savedError err }
      | .failed err => .error err

/-- The members of the object under `json.Unmarshal`, in the order of the
text. -/
def decodeMembers (c : HeaderCodecs) :
    List (String × JsonValue) → DecodeState → Except String DecodeState
  | [], st => .ok st
  | (key, value) :: rest, st =>
    match storeMember c st key value with
    | .error err => .error err
    | .ok next => decodeMembers c rest next

/-- The local struct of `UnmarshalJSON` as filled. -/
def decOf (target : DecodeTarget) : btHeaderDec :=
  { CommitteeHash := (target "CommitteeHash").bind FieldValue.asBytes,
    SnailHash := (target "SnailHash").bind FieldValue.asBytes,
    SnailNumber := (target "SnailNumber").bind FieldValue.asBig,
    Bloom := (target "Bloom").bind FieldValue.asBytes,
    Number := (target "Number").bind FieldValue.asBig,
    Hash := (target "Hash").bind FieldValue.asBytes,
    ParentHash := (target "ParentHash").bind FieldValue.asBytes,
    ReceiptsRoot := (target "ReceiptsRoot").bind FieldValue.asBytes,
    StateRoot := (target "StateRoot").bind FieldValue.asBytes,
    TransactionsRoot := (target "TransactionsRoot").bind FieldValue.asBytes,
    ExtraData := (target "ExtraData").bind FieldValue.asBytes,
    GasLimit := (target "GasLimit").bind FieldValue.asUint,
    GasUsed := (target "GasUsed").bind FieldValue.asUint,
    Timestamp := (target "Timestamp").bind FieldValue.asBig }

/-- The call `json.Unmarshal(input, &dec)` on the local struct of
`UnmarshalJSON`: the error of a text it rejects outright; nothing for `null`;
for an object the members in the order of the text, then the first recorded
type error if the decoding got to the end and there is one. -/
def jsonUnmarshal (c : HeaderCodecs) : JsonDocument → Except String btHeaderDec
  | .invalid err => .error err
  | .null => .ok (decOf (fun _ => none))
  | .object members =>
    match decodeMembers c members { target := fun _ => none, savedError := none } with
    | .error err => .error err
    | .ok st =>
      match st.savedError with
      | some err => .error err
      | none => .ok (decOf st.target)

/-- The statement `if dec.X != nil { b.X = conv(*dec.X) }`: the new value of
the field. -/
def assignField (conv : α → β) (old : β) : Option α → β
  | none => old
  | some v => conv v

/-- The method `btHeader.UnmarshalJSON`: decodes the input into the local
struct, returns the error if that fails, and otherwise overwrites each field
whose pointer is not nil. The first component is the error, the second the
header after the call. -/
def btHeader.UnmarshalJSON (c : HeaderCodecs) (b : btHeader) (input : JsonDocument) :
    Option String × btHeader :=
  match jsonUnmarshal c input with
  | .error err => (some err, b)
  | .ok dec =>
    (none,
       { CommitteeHash := assignField id b.CommitteeHash dec.CommitteeHash,
         SnailHash := assignField id b.SnailHash dec.SnailHash,
         SnailNumber := assignField some b.SnailNumber dec.SnailNumber,
         Bloom := assignField id b.Bloom dec.Bloom,
         Number := assignField some b.Number dec.Number,
         Hash := assignField id b.Hash dec.Hash,
         ParentHash := assignField id b.ParentHash dec.ParentHash,
         ReceiptsRoot := assignField id b.ReceiptsRoot dec.ReceiptsRoot,
         StateRoot := assignField id b.StateRoot dec.StateRoot,
         TransactionsRoot := assignField id b.TransactionsRoot dec.TransactionsRoot,
         ExtraData := assignField id b.ExtraData dec.ExtraData,
         GasLimit := assignField id b.GasLimit dec.GasLimit,
         GasUsed := assignField id b.GasUsed dec.GasUsed,
         Timestamp := assignField some b.Timestamp dec.Timestamp })

/-- How a member fares under `json.Unmarshal`, in the words of the frame
property: it decodes (or is skipped, or is `null`), it is a type error, or it
makes the unmarshalling method of its field fail. -/
inductive MemberStatus where
  | fine
  | typeError (err : String)
  | failure (err : String)
deriving DecidableEq, Repr

/-- The status of one member. -/
def memberStatus (c : HeaderCodecs) (key : String) (value : JsonValue) : MemberStatus :=
  match fieldFor c.equalFold key with
  | none => .fine
  | some name =>
    if value = .null then .fine
    else
      match decodeKind c (kindOf name) name value with
      | .ok _ => .fine
      | .saved err => .typeError err
      | .failed err => .failure err

/-- The error of the first member, in the order of the text, that makes an
unmarshalling method fail. -/
def firstFailure (c : HeaderCodecs) : List (String × JsonValue) → Option String
  | [] => none
  | (key, value) :: rest =>
    match memberStatus c key value with
    | .failure err => some err
    | _ => firstFailure c rest

/-- The error of the first member, in the order of the text, that is a type
error. -/
def firstTypeError (c : HeaderCodecs) : List (String × JsonValue) → Option String
  | [] => none
  | (key, value) :: rest =>
    match memberStatus c key value with
    | .typeError err => some err
    | _ => firstTypeError c rest

/-- When JSON decoding fails, and with which error, in the words of the frame
property: on a text rejected outright, with its error; on an object with a
member that makes an unmarshalling method fail, with the error of the first
such member in the order of the text; else on an object with a type error,
with the first of them. -/
def decodingError (c : HeaderCodecs) : JsonDocument → Option String
  | .invalid err => some err
  | .null => none
  | .object members =>
    match firstFailure c members with
    | some err => some err
    | none => firstTypeError c members

/-- The value the input supplies for a field: that of the last member decoded
into the field, `none` if the key is absent. -/
def suppliedValue (equalFold : String → String → Bool) (name : String) :
    List (String × JsonValue) → Option JsonValue
  | [] => none
  | (key, value) :: rest =>
    match suppliedValue equalFold name rest with
    | some later => some later
    | none => if fieldFor equalFold key = some name then some value else none

/-- What a field is to hold after decoding, in the words of the frame
property: its previous value if the key is absent or `null`, the decoded
value if it is present. -/
def keptOrDecoded (decode : JsonValue → Decoded α) (conv : α → β) (old : β)
    (supplied : Option JsonValue) : β :=
  match supplied with
  | none => old
  | some value =>
    if value = .null then old
    else
      match decode value with
      | .ok v => conv v
      | _ => old

/-- The value in a decoding result, if it is one. -/
def Decoded.value? : Decoded α → Option α
  | .ok v => some v
  | _ => none

/-- The decoded value the input supplies for a field, whatever its type:
nothing if the key is absent or `null`. -/
def decodedValue (c : HeaderCodecs) (name : String) (members : List (String × JsonValue)) :
    Option FieldValue :=
  match suppliedValue c.equalFold name members with
  | none => none
  | some value =>
    if value = .null then none else (decodeKind c (kindOf name) name value).value?

/-- A value survives the JSON encoding of its type: it is not encoded as
`null`, and its encoding decodes to it. -/
def RoundTrips (encode : α → JsonValue) (decode : JsonValue → Decoded α) (v : α) : Prop :=
  encode v ≠ .null ∧ decode (encode v) = .ok v

/-- Every field value of the header survives the JSON encoding of its type
(for a `*big.Int` field: the value pointed to, if any). -/
def btHeader.Encodable (c : HeaderCodecs) (h : btHeader) : Prop :=
  RoundTrips c.encodeHash (c.decodeHash "CommitteeHash") h.CommitteeHash ∧
  RoundTrips c.encodeHash (c.decodeHash "SnailHash") h.SnailHash ∧
  (∀ v, h.SnailNumber = some v → RoundTrips c.encodeBig (c.decodeBig "SnailNumber") v) ∧
  RoundTrips c.encodeBloom (c.decodeBloom "Bloom") h.Bloom ∧
  (∀ v, h.Number = some v → RoundTrips c.encodeBig (c.decodeBig "Number") v) ∧
  RoundTrips c.encodeHash (c.decodeHash "Hash") h.Hash ∧
  RoundTrips c.encodeHash (c.decodeHash "ParentHash") h.ParentHash ∧
  RoundTrips c.encodeHash (c.decodeHash "ReceiptsRoot") h.ReceiptsRoot ∧
  RoundTrips c.encodeHash (c.decodeHash "StateRoot") h.StateRoot ∧
  RoundTrips c.encodeHash (c.decodeHash "TransactionsRoot") h.TransactionsRoot ∧
  RoundTrips c.encodeBytes (c.decodeBytes "ExtraData") h.ExtraData ∧
  RoundTrips c.encodeUint64 (c.decodeUint64 "GasLimit") h.GasLimit ∧
  RoundTrips c.encodeUint64 (c.decodeUint64 "GasUsed") h.GasUsed ∧
  (∀ v, h.Timestamp = some v → RoundTrips c.encodeBig (c.decodeBig "Timestamp") v)

/-! ### The text form of `math.HexOrDecimal256`

Package `common/math` is not among the sources. The text form of its type
`HexOrDecimal256` is given here as the go-ethereum package of that name has
it; it serves as the big-integer encoding of the sample encodings below and
is not assumed by the statements about arbitrary encodings. -/

/-- The lower-case hexadecimal digit of a value below 16. -/
def hexDigit (d : Nat) : Char :=
  if d < 10 then Char.ofNat (48 + d) else Char.ofNat (87 + d)

/-- The base-16 digits of a number, least significant first, without leading
zeros (a single 0 for zero). The first argument bounds the number of
digits. -/
def hexDigitsLE : Nat → Nat → List Nat
  | 0, _ => []
  | fuel + 1, n => if n < 16 then [n] else (n % 16) :: hexDigitsLE fuel (n / 16)

/-- The number written in lower-case hexadecimal (`%x`). -/
def formatHex (n : Nat) : List Char :=
  (hexDigitsLE (n + 1) n).reverse.map hexDigit

/-- The method `HexOrDecimal256.MarshalText` on a non-nil receiver: the verb
`%#x` applied to the big integer, that is the sign if negative, the prefix
`0x` and the hexadecimal digits of the absolute value. -/
def HexOrDecimal256.MarshalText (v : Int) : String :=
  String.mk ((if v < 0 then ['-'] else []) ++ ('0' :: 'x' :: formatHex v.natAbs))

/-- The value of a digit character as `big.Int.SetString` reads it: `0` to
`9`, then the letters of either case from 10 on. -/
def digitValue (ch : Char) : Option Nat :=
  if 48 ≤ ch.toNat ∧ ch.toNat ≤ 57 then some (ch.toNat - 48)
  else if 97 ≤ ch.toNat ∧ ch.toNat ≤ 122 then some (ch.toNat - 97 + 10)
  else if 65 ≤ ch.toNat ∧ ch.toNat ≤ 90 then some (ch.toNat - 65 + 10)
  else none

/-- The digits of a number in the given base, read from the left onto an
accumulator; a character that is no digit of the base makes the scan fail. -/
def scanDigits (base : Nat) : List Char → Nat → Option Nat
  | [], acc => some acc
  | ch :: rest, acc =>
    match digitValue ch with
    | none => none
    | some d => if d < base then scanDigits base rest (acc * base + d) else none

/-- The method `big.Int.SetString(s, base)` for a base of 10 or 16: an
optional sign, then at least one digit of the base, and nothing else. -/
def SetString (s : List Char) (base : Nat) : Option Int :=
  let negative := decide (s.head? = some '-')
  let digits := if s.head? = some '-' ∨ s.head? = some '+' then s.tail else s
  if digits = [] then none
  else
    match scanDigits base digits 0 with
    | none => none
    | some n => some (if negative then -(n : Int) else (n : Int))

/-- The function `ParseBig256`: the empty string is zero; a string with the
prefix `0x` or `0X` is read in base 16, any other in base 10; a value of more
than 256 bits is refused. -/
def ParseBig256 (s : String) : Option Int :=
  if s.data = [] then some 0
  else
    match (if s.data.take 2 = ['0', 'x'] ∨ s.data.take 2 = ['0', 'X']
           then SetString (s.data.drop 2) 16 else SetString s.data 10) with
    | none => none
    | some v => if 2 ^ 256 ≤ v.natAbs then none else some v

/-! ## Sample inputs -/

/-- A sample system address under which the staking ledger is stored. -/
def sampleStakingAddress : Address := [0, 0, 1]

/-- Sample network parameters: minimum stake 500, lookahead of one epoch, a
key is valid for the address it starts with, deposits locked for ten heights. -/
def sampleStakingParams : StakingParams :=
  { minimumStake := 500, electionLookahead := 1,
    validateKey := fun address publicKey => address.isPrefixOf publicKey,
    lockHeightFor := fun epoch _ => epoch + 10 }

/-- Sample election policy: epochs of 100 heights, committees of two, at least
one member, no weight threshold, effective weight the sum of deposit and
proof-of-work weight. -/
def sampleElectionParams : ElectionParams :=
  { epochLength := 100, committeeSize := 2, minimumQuorumMembers := 1,
    minimumCombinedWeight := 0, effectiveWeight := fun deposit work => deposit + work }

/-- The depositor of `TestDeposit`. -/
def sampleFrom : Address := [7]

/-- The depositor's public key. -/
def samplePub : Bytes := [7, 4]

/-- The ledger of `TestDeposit`: an empty ledger into which
`InsertSAccount2(1000, 0, from, pub, 1000, 0, true)` was inserted. -/
def sampleLedger : ImpawnImpl :=
  (NewImpawnImpl.InsertSAccount2 sampleStakingParams 1000 0 sampleFrom samplePub 1000 0 true).2

/-- The state in which the sample ledger was saved under the staking address. -/
def sampleStorage : Storage := sampleLedger.Save (fun _ => []) sampleStakingAddress

/-- The round driver after a sequence of events, errors dropped. -/
def PbftAgent.run (s : PbftAgent) (events : List DriverEvent) : PbftAgent :=
  events.foldl (fun t e => (t.step e).2) s

/-- A sample committee of three members of weight one. -/
def sampleCommittee : Committee :=
  { epochNumber := 0,
    members := [⟨[1], [1, 0], 1⟩, ⟨[2], [2, 0], 1⟩, ⟨[3], [3, 0], 1⟩] }

/-- A round driver that has run height 0 to its commit: member `[1]`
proposes block 7, all three members vote, the block is committed. -/
def sampleDriver : PbftAgent :=
  (PbftAgent.start sampleCommittee [1] 3 0).run
    [.StartRound 7, .Proposal 0 0 [1] 7, .Vote [1] 0 0, .Vote [2] 0 0, .Vote [3] 0 0, .Commit]

/-- Sample block-number tags: `pending` is -2 and `latest` is -1. -/
def sampleRpcTags : RpcTags := { PendingBlockNumber := -2, LatestBlockNumber := -1 }

/-- The sample fast block at a height: its state root is the height as one
byte, its parent hash the height before. -/
def sampleBlock (number : Nat) : Block :=
  { header := { Number := number, Root := [Fin.ofNat number], ParentHash := [Fin.ofNat (number - 1)] },
    transactions := [] }

/-- A sample fast chain of the blocks 0 to 10, block 10 being the current
one; a header is found by hash under the one-byte hash of its height; every
state root can be opened. -/
def sampleBlockChain : BlockChain :=
  { CurrentBlock := some (sampleBlock 10),
    GetHeaderByNumber := fun n => if n ≤ 10 then some (sampleBlock n).header else none,
    GetHeaderByHash := fun hash =>
      match hash with
      | [h] => if h.val ≤ 10 then some (sampleBlock h.val).header else none
      | _ => none,
    GetBlockByNumber := fun n => if n ≤ 10 then some (sampleBlock n) else none,
    State := (some ⟨[10]⟩, none),
    StateAt := fun root => (some ⟨root⟩, none) }

/-- A sample full node whose agent is at committee number 5 and whose
election knows the committees 0 to 5 and returns the nil map for any other
id; its fast chain is the sample chain and its miner is working on block
11. -/
def sampleBackend : ICEAPIBackend :=
  { ice :=
    { election :=
        { GetCommitteeById := fun id =>
            if 0 ≤ id ∧ id ≤ 5 then some [("id", toString id)] else none },
      agent := { CommitteeNumber := 5 },
      blockchain := sampleBlockChain,
      miner := { PendingBlock := some (sampleBlock 11) } } }

/-- Sample message codes, numbered in the order of the `switch`. -/
def sampleProtocolCodes : ProtocolCodes :=
  { FastBlockHeadersMsg := 1, SnailBlockHeadersMsg := 2, FastBlockBodiesMsg := 3,
    SnailBlockBodiesMsg := 4, NodeDataMsg := 5, ReceiptsMsg := 6, NewFastBlockHashesMsg := 7,
    NewSnailBlockHashesMsg := 8, NewFastBlockMsg := 9, NewSnailBlockMsg := 10, TxMsg := 11,
    NewFruitMsg := 12, TbftNodeInfoMsg := 13, TbftNodeInfoHashMsg := 14,
    GetTbftNodeInfoMsg := 15, GetFastBlockHeadersMsg := 16, GetFastBlockBodiesMsg := 17,
    GetSnailBlockHeadersMsg := 18, GetSnailBlockBodiesMsg := 19 }

/-- A transport stream whose next read fails with `EOF`. -/
def sampleBrokenConn : MsgReadWriter := .conn (⟨0, 0, []⟩, some "EOF")

/-- A transport stream whose next read delivers a transaction message of 42
bytes. -/
def sampleTxConn : MsgReadWriter := .conn (⟨11, 42, []⟩, none)

/-- A sample light-client backend. -/
def sampleLesBackend : LesApiBackend := { ice := { networkId := 19330, genesisHash := [1] } }

/-- Sample sync modes: full 0, fast 1, snapshot 2 and light 3 are the valid
ones, light being 3. -/
def sampleSyncModes : SyncModes :=
  { LightSync := 3, IsValid := fun mode => decide (0 ≤ mode ∧ mode ≤ 3) }

/-- A sample service context in which every database opens. -/
def sampleServiceContext : ServiceContext :=
  { OpenDatabase := fun name _ _ => (some ⟨name⟩, none) }

/-- A sample remainder of `New` that puts the sample node together. -/
def sampleAssemble (_config : Config) (_chainDb : Option Database) :
    Option Icechain × Option String :=
  (some sampleBackend.ice, none)

/-- A sample configuration in light sync mode. -/
def sampleLightConfig : Config :=
  { SyncMode := 3, DatabaseCache := 768, DatabaseHandles := 1024, NetworkId := 19330 }

/-- A sample configuration with a sync mode that is not valid. -/
def sampleInvalidConfig : Config :=
  { SyncMode := 9, DatabaseCache := 768, DatabaseHandles := 1024, NetworkId := 19330 }

/-- A sample configuration in full sync mode. -/
def sampleFullConfig : Config :=
  { SyncMode := 0, DatabaseCache := 768, DatabaseHandles := 1024, NetworkId := 19330 }

/-- Sample encodings of byte strings, for hashes, blooms and extra data: they
know `[]`, `[1]` and `[2]` as hex strings and nothing else; an unknown string
makes the unmarshalling method fail, a value that is no string is a type
error. -/
def sampleEncodeBytes (b : Bytes) : JsonValue :=
  if b = [1] then .string "0x01" else if b = [2] then .string "0x02" else .string "0x"

/-- The sample decoder of byte strings. -/
def sampleDecodeBytes (name : String) (j : JsonValue) : Decoded Bytes :=
  if j = .string "0x01" then .ok [1]
  else if j = .string "0x02" then .ok [2]
  else if j = .string "0x" then .ok []
  else
    match j with
    | .string _ => .failed ("invalid hex string in " ++ name)
    | _ => .saved ("cannot unmarshal non-string into " ++ name)

/-- The sample encoder of 64-bit integers: it knows 5 and 0. -/
def sampleEncodeUint64 (n : Nat) : JsonValue :=
  if n = 5 then .string "0x5" else .string "0x0"

/-- The sample decoder of 64-bit integers. -/
def sampleDecodeUint64 (name : String) (j : JsonValue) : Decoded Nat :=
  if j = .string "0x5" then .ok 5
  else if j = .string "0x0" then .ok 0
  else
    match j with
    | .string _ => .failed ("invalid hex or decimal integer in " ++ name)
    | _ => .saved ("cannot unmarshal non-string into " ++ name)

/-- The sample encoder of big integers: the text form of
`math.HexOrDecimal256`. -/
def sampleEncodeBig (v : Int) : JsonValue := .string (HexOrDecimal256.MarshalText v)

/-- The sample decoder of big integers: a string goes through `ParseBig256`,
whose refusal makes the unmarshalling method fail; a value that is no string
is a type error. -/
def sampleDecodeBig (name : String) (j : JsonValue) : Decoded Int :=
  match j with
  | .string s =>
    match ParseBig256 s with
    | some v => .ok v
    | none => .failed ("invalid hex or decimal integer \"" ++ s ++ "\"")
  | _ => .saved ("cannot unmarshal non-string into " ++ name)

/-- Sample encodings: the byte-string and 64-bit encodings that know a handful
of values, the text form of `math.HexOrDecimal256` for big integers, and keys
compared without regard to case. -/
def sampleHeaderCodecs : HeaderCodecs :=
  { encodeHash := sampleEncodeBytes, decodeHash := sampleDecodeBytes,
    encodeBloom := sampleEncodeBytes, decodeBloom := sampleDecodeBytes,
    encodeBig := sampleEncodeBig, decodeBig := sampleDecodeBig,
    encodeBytes := sampleEncodeBytes, decodeBytes := sampleDecodeBytes,
    encodeUint64 := sampleEncodeUint64, decodeUint64 := sampleDecodeUint64,
    equalFold := fun a b => decide (a.data.map Char.toLower = b.data.map Char.toLower) }

/-- A sample header made of values the sample encodings know; its timestamp
is the nil pointer. -/
def sampleHeader : btHeader :=
  { CommitteeHash := [1], SnailHash := [2], SnailNumber := some 5, Bloom := [], Number := some 0,
    Hash := [1], ParentHash := [2], ReceiptsRoot := [1], StateRoot := [2],
    TransactionsRoot := [1], ExtraData := [1], GasLimit := 5, GasUsed := 0, Timestamp := none }

/-- A sample header that differs from the first one in its block number,
which is -5. -/
def sampleNegativeHeader : btHeader := { sampleHeader with Number := some (-5) }

/-- A sample input whose first member does not decode as a bloom and whose
second member does not decode as a hash. -/
def sampleTwoBadMembers : JsonDocument :=
  .object [("Bloom", .string "0x01zz"), ("CommitteeHash", .string "0x01zz")]

/-- A sample input that sets the gas limit under a lower-case key, sets the
number to `null` and carries a key that is no field. -/
def samplePartialInput : JsonDocument :=
  .object [("gaslimit", .string "0x0"), ("Number", .null), ("foo", .other "1")]

/-- A ledger built by depositing, at epoch 0 and round 0, for the given
(address, deposit) pairs in turn; each key is the address followed by a zero
byte, which the sample parameters accept. -/
def sampleLedgerOf (deposits : List (Address × Nat)) : ImpawnImpl :=
  deposits.foldl
    (fun l d => (l.InsertOrUpdateAccount sampleStakingParams 0 0 d.1 (d.1 ++ [0]) d.2 0 true).2)
    NewImpawnImpl

/-- A ledger into which the accounts `[1]`, `[2]` and `[3]` deposited 1000,
1000 and 1200, in this order. -/
def sampleLedgerABC : ImpawnImpl := sampleLedgerOf [([1], 1000), ([2], 1000), ([3], 1200)]

/-- A ledger built on another node, into which the same three accounts
deposited the same amounts in the opposite order. -/
def sampleLedgerCBA : ImpawnImpl := sampleLedgerOf [([3], 1200), ([2], 1000), ([1], 1000)]

/-- The state in which the first of the two ledgers was saved. -/
def sampleStorageABC : Storage := sampleLedgerABC.Save (fun _ => []) sampleStakingAddress

/-- The state in which the second of the two ledgers was saved. -/
def sampleStorageCBA : Storage := sampleLedgerCBA.Save (fun _ => []) sampleStakingAddress

/-- A sample proof-of-work snapshot: account `[3]` has mined weight 7 since
any boundary, nobody else has mined. -/
def samplePow1 : ProofOfWorkChain := fun address _ => if address = [3] then 7 else 0

/-- Another sample snapshot that agrees with the first one on the three
accounts since boundary 0 and differs elsewhere: on the account `[9]`, and on
every account since any later boundary. -/
def samplePow2 : ProofOfWorkChain := fun address boundary =>
  if address = [9] then 50
  else if boundary = 0 then (if address = [3] then 7 else 0)
  else 99

/-! ## Codec lemmas -/

theorem getUvarint_putUvarintAux (fuel n : Nat) (h : n ≤ fuel) (rest : Bytes) :
    getUvarint (putUvarintAux fuel n ++ rest) = some (n, rest) := by
  induction fuel generalizing n with
  | zero =>
    have : n = 0 := by omega
    subst this
    simp [putUvarintAux, getUvarint]
  | succ k ih =>
    unfold putUvarintAux
    by_cases hn : n < 128
    · have : n % 128 = n := Nat.mod_eq_of_lt hn
      simp [hn, getUvarint, this]
    · have hk : n / 128 ≤ k := by omega
      simp only [hn, if_false, List.cons_append, getUvarint]
      rw [ih (n / 128) hk]
      have : ¬ (128 + n % 128 < 128) := by omega
      simp only [this, if_false]
      congr 2
      omega

theorem getUvarint_putUvarint (n : Nat) (rest : Bytes) :
    getUvarint (putUvarint n ++ rest) = some (n, rest) :=
  getUvarint_putUvarintAux n n (Nat.le_refl n) rest

theorem getBytes_putBytes (bs rest : Bytes) :
    getBytes (putBytes bs ++ rest) = some (bs, rest) := by
  simp [getBytes, putBytes, List.append_assoc, getUvarint_putUvarint]

theorem getBool_putBool (b : Bool) (rest : Bytes) :
    getBool (putBool b ++ rest) = some (b, rest) := by
  cases b <;> simp [getBool, putBool]

theorem decodeAccount_encodeAccount (a : StakingAccount) (rest : Bytes) :
    decodeAccount (encodeAccount a ++ rest) = some (a, rest) := by
  simp [decodeAccount, encodeAccount, List.append_assoc, getBytes_putBytes,
    getUvarint_putUvarint, getBool_putBool]

theorem decodeAccounts_encodeAccounts (as : List StakingAccount) (rest : Bytes) :
    decodeAccounts as.length (encodeAccounts as ++ rest) = some (as, rest) := by
  induction as with
  | nil => simp [decodeAccounts, encodeAccounts]
  | cons a as ih =>
    simp [decodeAccounts, encodeAccounts, List.append_assoc, decodeAccount_encodeAccount, ih]

theorem decodeLedger_encodeLedger (l : ImpawnImpl) :
    decodeLedger (encodeLedger l) = some l := by
  have h := decodeAccounts_encodeAccounts l.accounts []
  rw [List.append_nil] at h
  simp [decodeLedger, encodeLedger, getUvarint_putUvarint, h]

theorem Load_Save (l : ImpawnImpl) (storage : Storage) (systemAddress : Address) :
    ImpawnImpl.Load (l.Save storage systemAddress) systemAddress = .ok l := by
  simp [ImpawnImpl.Load, ImpawnImpl.Save, Storage.get, Storage.set, decodeLedger_encodeLedger]

theorem Load_ok_iff (storage : Storage) (systemAddress : Address) (l : ImpawnImpl) :
    ImpawnImpl.Load storage systemAddress = .ok l ↔
      decodeLedger (storage.get systemAddress) = some l := by
  unfold ImpawnImpl.Load
  cases h : decodeLedger (storage.get systemAddress) <;> simp

/-! ## Staking ledger: round trip -/

/-- C1: a ledger saved to the state under the staking address and loaded into
a freshly constructed ledger comes back as the same ledger, and saving the
loaded ledger again leaves under the staking address exactly the bytes that
were loaded (indeed the whole state is unchanged). -/
theorem staking_ledger_round_trip (l : ImpawnImpl) (storage : Storage)
    (systemAddress : Address) :
    match ImpawnImpl.Load (l.Save storage systemAddress) systemAddress with
    | .ok loaded =>
      loaded = l ∧
      (loaded.Save (l.Save storage systemAddress) systemAddress).get systemAddress
        = (l.Save storage systemAddress).get systemAddress ∧
      loaded.Save (l.Save storage systemAddress) systemAddress = l.Save storage systemAddress
    | .error _ => False := by
  rw [Load_Save]
  refine ⟨rfl, ?_, ?_⟩
  · simp [ImpawnImpl.Save, Storage.get, Storage.set]
  · funext k
    by_cases hk : k = systemAddress <;> simp [ImpawnImpl.Save, Storage.set, hk]

/-- The round trip on the ledger of `TestDeposit`, by evaluation. -/
theorem testDeposit_round_trip :
    ImpawnImpl.Load sampleStorage sampleStakingAddress = .ok sampleLedger ∧
    sampleLedger.accounts.length = 1 := by
  decide

/-! ## Election: determinism -/

theorem bytesLt_asymm : ∀ (a b : Bytes), bytesLt a b = true → bytesLt b a = false
  | [], [], h => by simp [bytesLt] at h
  | [], _ :: _, _ => by simp [bytesLt]
  | _ :: _, [], h => by simp [bytesLt] at h
  | x :: xs, y :: ys, h => by
    simp only [bytesLt] at h ⊢
    by_cases hxy : x.val < y.val
    · have hyx : ¬ y.val < x.val := by omega
      simp [hyx, hxy]
    · by_cases hyx : y.val < x.val
      · simp [hxy, hyx] at h
      · simp only [hxy, hyx, if_false] at h ⊢
        exact bytesLt_asymm xs ys h

theorem bytesLt_connex : ∀ (a b : Bytes), bytesLt a b = false → bytesLt b a = false → a = b
  | [], [], _, _ => rfl
  | [], _ :: _, h, _ => by simp [bytesLt] at h
  | _ :: _, [], _, h => by simp [bytesLt] at h
  | x :: xs, y :: ys, h1, h2 => by
    simp only [bytesLt] at h1 h2
    by_cases hxy : x.val < y.val
    · simp [hxy] at h1
    · by_cases hyx : y.val < x.val
      · simp [hyx] at h2
      · simp only [hxy, hyx, if_false] at h1 h2
        have hv : x = y := Fin.ext (by omega)
        rw [hv, bytesLt_connex xs ys h1 h2]

theorem bytesLt_cotrans : ∀ (a b c : Bytes), bytesLt a c = true →
    bytesLt a b = true ∨ bytesLt b c = true
  | [], _, [], h => by simp [bytesLt] at h
  | _ :: _, _, [], h => by simp [bytesLt] at h
  | [], [], _ :: _, _ => by simp [bytesLt]
  | [], _ :: _, _ :: _, _ => by simp [bytesLt]
  | _ :: _, [], _ :: _, _ => by simp [bytesLt]
  | x :: xs, y :: ys, z :: zs, h => by
    simp only [bytesLt] at h ⊢
    by_cases hxy : x.val < y.val
    · simp [hxy]
    · by_cases hyz : y.val < z.val
      · simp [hyz]
      · by_cases hyx : y.val < x.val
        · have hxz : ¬ x.val < z.val := by omega
          have hzx : z.val < x.val := by omega
          simp [hxz, hzx] at h
        · by_cases hzy : z.val < y.val
          · have hxz : ¬ x.val < z.val := by omega
            have hzx : z.val < x.val := by omega
            simp [hxz, hzx] at h
          · have hxz : ¬ x.val < z.val := by omega
            have hzx : ¬ z.val < x.val := by omega
            simp only [hxz, hzx, hxy, hyx, hyz, hzy, if_false] at h ⊢
            exact bytesLt_cotrans xs ys zs h

theorem ranksBefore_iff (x y : Nat × StakingAccount) :
    ranksBefore x y = true ↔
      y.1 < x.1 ∨ (x.1 = y.1 ∧ bytesLt x.2.address y.2.address = false) := by
  unfold ranksBefore
  by_cases h1 : y.1 < x.1
  · simp [h1]
  · by_cases h2 : x.1 < y.1
    · have hne : x.1 ≠ y.1 := by omega
      simp [h1, h2, hne]
    · have : x.1 = y.1 := by omega
      simp [h1, h2, this]

theorem ranksBefore_total (x y : Nat × StakingAccount) :
    ranksBefore x y = true ∨ ranksBefore y x = true := by
  rw [ranksBefore_iff, ranksBefore_iff]
  by_cases h1 : y.1 < x.1
  · exact Or.inl (Or.inl h1)
  · by_cases h2 : x.1 < y.1
    · exact Or.inr (Or.inl h2)
    · have heq : x.1 = y.1 := by omega
      cases hb : bytesLt x.2.address y.2.address with
      | false => exact Or.inl (Or.inr ⟨heq, rfl⟩)
      | true => exact Or.inr (Or.inr ⟨heq.symm, bytesLt_asymm _ _ hb⟩)

theorem ranksBefore_trans (x y z : Nat × StakingAccount)
    (hxy : ranksBefore x y = true) (hyz : ranksBefore y z = true) : ranksBefore x z = true := by
  rw [ranksBefore_iff] at hxy hyz ⊢
  rcases hxy with hxy | ⟨hxy, hbxy⟩
  · rcases hyz with hyz | ⟨hyz, _⟩
    · exact Or.inl (by omega)
    · exact Or.inl (by omega)
  · rcases hyz with hyz | ⟨hyz, hbyz⟩
    · exact Or.inl (by omega)
    · refine Or.inr ⟨by omega, ?_⟩
      cases hb : bytesLt x.2.address z.2.address with
      | false => rfl
      | true =>
        rcases bytesLt_cotrans _ y.2.address _ hb with h | h
        · rw [h] at hbxy; exact absurd hbxy (by simp)
        · rw [h] at hbyz; exact absurd hbyz (by simp)

theorem ranksBefore_antisymm (x y : Nat × StakingAccount)
    (hxy : ranksBefore x y = true) (hyx : ranksBefore y x = true) :
    x.1 = y.1 ∧ x.2.address = y.2.address := by
  rw [ranksBefore_iff] at hxy hyx
  rcases hxy with hxy | ⟨hxy, hbxy⟩
  · rcases hyx with hyx | ⟨hyx, _⟩ <;> omega
  · rcases hyx with hyx | ⟨_, hbyx⟩
    · omega
    · exact ⟨hxy, bytesLt_connex _ _ hbxy hbyx⟩

theorem insertRanked_perm (x : Nat × StakingAccount) (l : List (Nat × StakingAccount)) :
    (insertRanked x l).Perm (x :: l) := by
  induction l with
  | nil => exact List.Perm.refl _
  | cons y ys ih =>
    unfold insertRanked
    split_ifs
    · exact List.Perm.refl _
    · exact (List.Perm.cons y ih).trans (List.Perm.swap x y ys)

theorem sortRanked_perm (l : List (Nat × StakingAccount)) : (sortRanked l).Perm l := by
  induction l with
  | nil => exact List.Perm.refl _
  | cons x xs ih => exact (insertRanked_perm x (sortRanked xs)).trans (List.Perm.cons x ih)

theorem insertRanked_sorted (x : Nat × StakingAccount) (l : List (Nat × StakingAccount))
    (hl : l.Pairwise (fun a b => ranksBefore a b = true)) :
    (insertRanked x l).Pairwise (fun a b => ranksBefore a b = true) := by
  induction l with
  | nil => simp [insertRanked]
  | cons y ys ih =>
    rw [List.pairwise_cons] at hl
    unfold insertRanked
    split_ifs with hxy
    · refine List.Pairwise.cons ?_ (List.Pairwise.cons hl.1 hl.2)
      intro z hz
      rcases List.mem_cons.mp hz with rfl | hz
      · exact hxy
      · exact ranksBefore_trans x y z hxy (hl.1 z hz)
    · refine List.Pairwise.cons ?_ (ih hl.2)
      intro z hz
      rcases List.mem_cons.mp ((insertRanked_perm x ys).subset hz) with rfl | hz
      · rcases ranksBefore_total z y with h | h
        · exact absurd h hxy
        · exact h
      · exact hl.1 z hz

theorem sortRanked_sorted (l : List (Nat × StakingAccount)) :
    (sortRanked l).Pairwise (fun a b => ranksBefore a b = true) := by
  induction l with
  | nil => simp [sortRanked]
  | cons x xs ih => exact insertRanked_sorted x (sortRanked xs) ih

theorem sorted_perm_unique (l1 l2 : List (Nat × StakingAccount)) (hp : l1.Perm l2)
    (h1 : l1.Pairwise (fun a b => ranksBefore a b = true))
    (h2 : l2.Pairwise (fun a b => ranksBefore a b = true))
    (hanti : ∀ x ∈ l1, ∀ y ∈ l1, ranksBefore x y = true → ranksBefore y x = true → x = y) :
    l1 = l2 := by
  induction l1 generalizing l2 with
  | nil => exact (List.Perm.nil_eq hp)
  | cons a as ih =>
    cases l2 with
    | nil => exact absurd hp.symm (List.not_perm_nil_cons a as)
    | cons b bs =>
      rw [List.pairwise_cons] at h1 h2
      have hab : a = b := by
        have ha : a ∈ b :: bs := hp.subset (List.mem_cons_self a as)
        have hb : b ∈ a :: as := hp.symm.subset (List.mem_cons_self b bs)
        rcases List.mem_cons.mp ha with h | ha'
        · exact h
        · rcases List.mem_cons.mp hb with h | hb'
          · exact h.symm
          · exact hanti a (List.mem_cons_self a as) b hb (h1.1 b hb') (h2.1 a ha')
      subst hab
      have hp' : as.Perm bs := (List.perm_cons a).mp hp
      rw [ih bs hp' h1.2 h2.2
        (fun x hx y hy => hanti x (List.mem_cons_of_mem a hx) y (List.mem_cons_of_mem a hy))]

theorem sortRanked_perm_invariant (l1 l2 : List (Nat × StakingAccount)) (hp : l1.Perm l2)
    (hanti : ∀ x ∈ l1, ∀ y ∈ l1, ranksBefore x y = true → ranksBefore y x = true → x = y) :
    sortRanked l1 = sortRanked l2 := by
  apply sorted_perm_unique _ _ _ (sortRanked_sorted l1) (sortRanked_sorted l2)
  · intro x hx y hy
    exact hanti x ((sortRanked_perm l1).subset hx) y ((sortRanked_perm l1).subset hy)
  · exact (sortRanked_perm l1).trans (hp.trans (sortRanked_perm l2).symm)

theorem weightedCandidates_congr (e : ElectionParams) (l : ImpawnImpl)
    (pow1 pow2 : ProofOfWorkChain) (epoch : Nat)
    (hpow : ∀ a ∈ l.accounts, pow1 a.address (boundaryHeight e (epoch - 1))
      = pow2 a.address (boundaryHeight e (epoch - 1))) :
    weightedCandidates e l pow1 epoch = weightedCandidates e l pow2 epoch := by
  unfold weightedCandidates
  congr 1
  apply List.map_congr_left
  intro a ha
  rw [hpow a (List.mem_of_mem_filter ha)]

theorem weightedCandidates_perm (e : ElectionParams) (l1 l2 : ImpawnImpl)
    (pow : ProofOfWorkChain) (epoch : Nat) (hperm : l1.accounts.Perm l2.accounts)
    (hkeyed : (l1.accounts.map StakingAccount.address).Nodup) :
    weightedCandidates e l1 pow epoch = weightedCandidates e l2 pow epoch := by
  unfold weightedCandidates
  apply sortRanked_perm_invariant
  · exact (hperm.filter _).map _
  · intro x hx y hy hxy hyx
    obtain ⟨a, ha, rfl⟩ := List.mem_map.mp hx
    obtain ⟨b, hb, rfl⟩ := List.mem_map.mp hy
    have haddr : a.address = b.address := (ranksBefore_antisymm _ _ hxy hyx).2
    have hab : a = b :=
      List.inj_on_of_nodup_map hkeyed (List.mem_of_mem_filter ha) (List.mem_of_mem_filter hb)
        haddr
    rw [hab]

/-- C2: committee selection is a function of the staking accounts on record
and of their proof-of-work weight since the boundary before the epoch of the
height, and of nothing else. Two ledger instances loaded from storage, which
either comes with the same bytes under the staking address or holds the same
accounts, keyed by address, in whatever order each instance was built,
evaluated against weight snapshots that agree on those accounts at that
boundary, yield the same result at every height: the same members in the same
order with the same voting weights, or the same failure. The order of the
ledger and the weights of anybody else do not show. -/
theorem selectCommittee_deterministic (e : ElectionParams) (storage1 storage2 : Storage)
    (systemAddress : Address) (l1 l2 : ImpawnImpl) (pow1 pow2 : ProofOfWorkChain)
    (chainHeight : Nat)
    (hload1 : ImpawnImpl.Load storage1 systemAddress = .ok l1)
    (hload2 : ImpawnImpl.Load storage2 systemAddress = .ok l2)
    (hsame : storage1.get systemAddress = storage2.get systemAddress ∨
      (l1.accounts.Perm l2.accounts ∧ (l1.accounts.map StakingAccount.address).Nodup))
    (hpow : ∀ a ∈ l1.accounts,
      pow1 a.address (boundaryHeight e (epochOf e chainHeight - 1))
        = pow2 a.address (boundaryHeight e (epochOf e chainHeight - 1))) :
    SelectCommittee e l1 pow1 chainHeight = SelectCommittee e l2 pow2 chainHeight := by
  have hw : weightedCandidates e l1 pow1 (epochOf e chainHeight)
      = weightedCandidates e l2 pow2 (epochOf e chainHeight) := by
    rw [weightedCandidates_congr e l1 pow1 pow2 (epochOf e chainHeight) hpow]
    rcases hsame with hbytes | ⟨hperm, hkeyed⟩
    · rw [Load_ok_iff] at hload1 hload2
      rw [hbytes, hload2] at hload1
      rw [Option.some.inj hload1]
    · exact weightedCandidates_perm e l1 l2 pow2 (epochOf e chainHeight) hperm hkeyed
  unfold SelectCommittee
  simp only [hw]

/-- C2 on two ledgers built in opposite orders and saved to different bytes,
against two weight snapshots that differ off the ledger: at height 150 both
elect account `[3]` with weight 1207 and then account `[2]`, which ties with
account `[1]` at 1000 and wins on its address. -/
theorem selectCommittee_deterministic_witness :
    sampleStorageABC.get sampleStakingAddress ≠ sampleStorageCBA.get sampleStakingAddress ∧
    samplePow1 [9] 0 ≠ samplePow2 [9] 0 ∧
    SelectCommittee sampleElectionParams sampleLedgerABC samplePow1 150
      = .ok { epochNumber := 1,
              members := [⟨[3], [3, 0], 1207⟩, ⟨[2], [2, 0], 1000⟩] } ∧
    SelectCommittee sampleElectionParams sampleLedgerABC samplePow1 150
      = SelectCommittee sampleElectionParams sampleLedgerCBA samplePow2 150 :=
  ⟨by decide, by decide, by decide,
   selectCommittee_deterministic sampleElectionParams sampleStorageABC sampleStorageCBA
     sampleStakingAddress sampleLedgerABC sampleLedgerCBA samplePow1 samplePow2 150
     (Load_Save _ _ _) (Load_Save _ _ _)
     (Or.inr ⟨by decide, by decide⟩)
     (by decide)⟩

/-! ## Quorum -/

/-- C4: a set of voters of a committee reaches quorum exactly when the sum
of their voting weights is strictly greater than two thirds of the
committee's total voting weight, in exact rational arithmetic. -/
theorem quorum_iff_exceeds_two_thirds (c : Committee) (voters : List CommitteeMember) :
    c.reachesQuorum voters = true ↔
      (2 / 3 : ℚ) * (c.totalVotingWeight : ℚ)
        < (((voters.map CommitteeMember.votingWeight).sum : Nat) : ℚ) := by
  unfold Committee.reachesQuorum
  rw [decide_eq_true_iff]
  generalize c.totalVotingWeight = total
  generalize (voters.map CommitteeMember.votingWeight).sum = voted
  constructor
  · intro h
    have h' : (2 : ℚ) * (total : ℚ) < 3 * (voted : ℚ) := by exact_mod_cast h
    linarith
  · intro h
    have h' : (2 : ℚ) * (total : ℚ) < 3 * (voted : ℚ) := by linarith
    exact_mod_cast h'

/-! ## Consensus round driver -/

theorem step_effect (s : PbftAgent) (e : DriverEvent) :
    ((s.step e).2.committed = s.committed ∧ s.round.height ≤ (s.step e).2.round.height) ∨
    (∃ block, (s.step e).2.committed = s.committed ++ [(s.round.height, block)] ∧
      (s.step e).2.round.height = s.round.height + 1) := by
  cases e with
  | StartRound block => simp only [PbftAgent.step]; split_ifs <;> simp
  | Proposal height round sender block => simp only [PbftAgent.step]; split_ifs <;> simp
  | Vote member height round => simp only [PbftAgent.step]; split_ifs <;> simp
  | Timeout => simp only [PbftAgent.step]; split_ifs <;> simp
  | ViewChange => simp only [PbftAgent.step]; split_ifs <;> simp
  | Commit =>
    simp only [PbftAgent.step]
    split
    · right
      exact ⟨_, rfl, rfl⟩
    · simp
  | HeightAdvance height =>
    simp only [PbftAgent.step]
    split_ifs with h
    · left
      exact ⟨rfl, Nat.le_of_lt h⟩
    · simp

theorem committedAt_append (s : PbftAgent) (committed : List (Nat × Nat)) (h0 block height : Nat)
    (hc : s.committed = committed ++ [(h0, block)]) :
    s.committedAt height =
      (committed.filter (fun hb => decide (hb.1 = height))).map Prod.snd
        ++ (if h0 = height then [block] else []) := by
  unfold PbftAgent.committedAt
  rw [hc, List.filter_append, List.map_append]
  by_cases h : h0 = height <;> simp [List.filter_cons, h]

theorem reachable_invariant (s : PbftAgent) (hs : s.Reachable) :
    (∀ hb ∈ s.committed, hb.1 < s.round.height) ∧
    ∀ height, (s.committedAt height).length ≤ 1 := by
  induction hs with
  | start c localMember maxRounds height =>
    simp [PbftAgent.start, PbftAgent.committedAt]
  | step s e _ ih =>
    obtain ⟨hlt, hone⟩ := ih
    rcases step_effect s e with ⟨hc, hh⟩ | ⟨block, hc, hh⟩
    · constructor
      · intro hb hmem
        rw [hc] at hmem
        exact Nat.lt_of_lt_of_le (hlt hb hmem) hh
      · intro height
        have : (s.step e).2.committedAt height = s.committedAt height := by
          unfold PbftAgent.committedAt
          rw [hc]
        rw [this]
        exact hone height
    · constructor
      · intro hb hmem
        rw [hc, List.mem_append, List.mem_singleton] at hmem
        rcases hmem with hmem | rfl
        · have := hlt hb hmem
          omega
        · simp only
          omega
      · intro height
        rw [committedAt_append (s.step e).2 s.committed s.round.height block height hc]
        by_cases hh0 : s.round.height = height
        · have hnil : s.committed.filter (fun hb => decide (hb.1 = height)) = [] := by
            rw [List.filter_eq_nil_iff]
            intro hb hmem
            have := hlt hb hmem
            simp only [decide_eq_true_eq]
            omega
          simp [hnil, hh0]
        · have := hone height
          unfold PbftAgent.committedAt at this
          simpa [hh0] using this

theorem reachable_run (s : PbftAgent) (events : List DriverEvent) (hs : s.Reachable) :
    (s.run events).Reachable := by
  induction events generalizing s with
  | nil => exact hs
  | cons e es ih => exact ih (s.step e).2 (PbftAgent.Reachable.step s e hs)

/-- C3: in every reachable state of the round driver at most one candidate
block has been committed at any given height, and a proposal for a height at
which a block has been committed is rejected with `HeightAlreadyFinalized`,
the driver staying as it was. -/
theorem at_most_one_commit_per_height (s : PbftAgent) (hs : s.Reachable) (height : Nat) :
    (s.committedAt height).length ≤ 1 ∧
    (s.committedAt height ≠ [] →
      ∀ round sender block,
        s.step (.Proposal height round sender block) = (some .HeightAlreadyFinalized, s)) := by
  obtain ⟨hlt, hone⟩ := reachable_invariant s hs
  refine ⟨hone height, ?_⟩
  intro hne round sender block
  have hex : ∃ hb ∈ s.committed, hb.1 = height := by
    by_contra hno
    push_neg at hno
    apply hne
    unfold PbftAgent.committedAt
    rw [List.map_eq_nil_iff, List.filter_eq_nil_iff]
    intro hb hmem
    simpa using hno hb hmem
  obtain ⟨hb, hmem, rfl⟩ := hex
  simp only [PbftAgent.step, hlt hb hmem, if_true]

/-- C3 at the sample driver, which has committed block 7 at height 0: one
block there, and a further proposal for height 0 is rejected. -/
theorem at_most_one_commit_per_height_witness :
    sampleDriver.committedAt 0 = [7] ∧
    (sampleDriver.committedAt 0).length ≤ 1 ∧
    sampleDriver.step (.Proposal 0 1 [2] 9) = (some .HeightAlreadyFinalized, sampleDriver) :=
  ⟨by decide,
   (at_most_one_commit_per_height sampleDriver
     (reachable_run _ _ (PbftAgent.Reachable.start sampleCommittee [1] 3 0)) 0).1,
   (at_most_one_commit_per_height sampleDriver
     (reachable_run _ _ (PbftAgent.Reachable.start sampleCommittee [1] 3 0)) 0).2
     (by decide) 1 [2] 9⟩

/-- C5: collecting the same member's vote for the same (height, round) a
second time changes nothing: the collected votes, the accumulated quorum
weight and indeed the whole driver state are what they were after the first
time. -/
theorem vote_collection_idempotent (s : PbftAgent) (member : Address) (height round : Nat) :
    ((s.step (.Vote member height round)).2.step (.Vote member height round)).2.round.collectedVotes
      = (s.step (.Vote member height round)).2.round.collectedVotes ∧
    quorumWeight ((s.step (.Vote member height round)).2.step (.Vote member height round)).2.committee
        ((s.step (.Vote member height round)).2.step (.Vote member height round)).2.round.collectedVotes
      = quorumWeight (s.step (.Vote member height round)).2.committee
        (s.step (.Vote member height round)).2.round.collectedVotes ∧
    ((s.step (.Vote member height round)).2.step (.Vote member height round)).2
      = (s.step (.Vote member height round)).2 := by
  have key : ((s.step (.Vote member height round)).2.step (.Vote member height round)).2
      = (s.step (.Vote member height round)).2 := by
    simp only [PbftAgent.step]
    split_ifs with h1 h2 <;> simp_all
  rw [key]
  exact ⟨rfl, rfl, rfl⟩

/-! ## Committee lookup -/

/-- C6, as the code has it: `ICEAPIBackend.GetCommittee` never returns an
error. For `latest` it returns what `GetCommitteeById` gives for the agent's
current committee number, for any other number what `GetCommitteeById` gives
for that number, each time with a nil error; a committee that was not
computed shows only in the map returned. -/
theorem getCommittee_error_is_nil (rpc : RpcTags) (b : ICEAPIBackend) (number : Int) :
    (ICEAPIBackend.GetCommittee rpc b number).2 = none ∧
    (ICEAPIBackend.GetCommittee rpc b number).1 =
      if number = rpc.LatestBlockNumber then
        b.ice.election.GetCommitteeById ((b.ice.agent.CommitteeNumber % 2 ^ 64 : Nat) : Int)
      else b.ice.election.GetCommitteeById number := by
  unfold ICEAPIBackend.GetCommittee
  split_ifs <;> exact ⟨rfl, rfl⟩

/-- C6 as stated fails: on a node at committee number 5, whose election has
nothing for id 7, `GetCommittee(7)` returns the nil map together with a nil
error, not `UnknownEpoch`. -/
theorem getCommittee_beyond_current_returns_nil_error :
    ((sampleBackend.ice.agent.CommitteeNumber : Nat) : Int) < 7 ∧
    sampleBackend.ice.election.GetCommitteeById 7 = none ∧
    ¬ ((ICEAPIBackend.GetCommittee sampleRpcTags sampleBackend 7).2 ≠ none) := by
  decide

/-! ## Staking ledger: deposits and withdrawals -/

theorem find_topUp (address : Address) (depositValue firstEligible : Nat)
    (as : List StakingAccount) (a : StakingAccount)
    (h : as.find? (fun x => decide (x.address = address)) = some a) :
    (topUp address depositValue firstEligible as).find? (fun x => decide (x.address = address))
      = some { a with depositValue := a.depositValue + depositValue,
                      epochFirstEligible := firstEligible } := by
  induction as with
  | nil => simp at h
  | cons x xs ih =>
    by_cases hx : x.address = address
    · have hax : x = a := by simpa [List.find?_cons, hx] using h
      subst hax
      simp [topUp, hx, List.find?_cons]
    · have hrest : xs.find? (fun x => decide (x.address = address)) = some a := by
        simpa [List.find?_cons, hx] using h
      simp [topUp, hx, List.find?_cons, ih hrest]

/-- C7: for an account whose key validates against its address, a deposit
equal to the network minimum is accepted, after which the account is in the
ledger with at least the minimum deposited, and a deposit one unit below the
minimum is rejected with `BelowMinimumStake`, the ledger staying as it was. -/
theorem minimum_stake_boundary (p : StakingParams) (l : ImpawnImpl) (epoch round : Nat)
    (address : Address) (publicKey : Bytes) (fee : Nat) (isDelegate : Bool)
    (hkey : p.validateKey address publicKey = true) (hpos : 0 < p.minimumStake) :
    (l.InsertOrUpdateAccount p epoch round address publicKey p.minimumStake fee isDelegate).1
      = none ∧
    (∃ a, (l.InsertOrUpdateAccount p epoch round address publicKey p.minimumStake fee
        isDelegate).2.GetStakingAccount address = .ok a ∧ p.minimumStake ≤ a.depositValue) ∧
    l.InsertOrUpdateAccount p epoch round address publicKey (p.minimumStake - 1) fee isDelegate
      = (some .BelowMinimumStake, l) := by
  refine ⟨?_, ?_, ?_⟩
  · unfold ImpawnImpl.InsertOrUpdateAccount
    simp only [Nat.lt_irrefl, if_false, hkey, Bool.true_eq_false]
    cases l.accounts.find? (fun a => decide (a.address = address)) <;> rfl
  · unfold ImpawnImpl.InsertOrUpdateAccount
    simp only [Nat.lt_irrefl, if_false, hkey, Bool.true_eq_false]
    cases hfind : l.accounts.find? (fun a => decide (a.address = address)) with
    | none =>
      refine ⟨{ address := address, publicKey := publicKey, depositValue := p.minimumStake,
                isDelegate := isDelegate, epochFirstEligible := epoch + p.electionLookahead,
                lockHeight := p.lockHeightFor epoch round, fee := fee }, ?_, Nat.le_refl _⟩
      simp only [ImpawnImpl.GetStakingAccount]
      rw [List.find?_append, hfind]
      simp [List.find?_cons]
    | some a =>
      refine ⟨{ a with depositValue := a.depositValue + p.minimumStake,
                       epochFirstEligible := epoch + p.electionLookahead }, ?_, ?_⟩
      · simp only [ImpawnImpl.GetStakingAccount]
        rw [find_topUp address p.minimumStake (epoch + p.electionLookahead) l.accounts a hfind]
      · exact Nat.le_add_left _ _
  · unfold ImpawnImpl.InsertOrUpdateAccount
    have : p.minimumStake - 1 < p.minimumStake := by omega
    simp only [this, if_true]

/-- C7 with the sample parameters (minimum 500): 500 is accepted into the
empty ledger, 499 is rejected. -/
theorem minimum_stake_boundary_witness :
    (NewImpawnImpl.InsertOrUpdateAccount sampleStakingParams 1000 0 sampleFrom samplePub 500 0
      true).1 = none ∧
    NewImpawnImpl.InsertOrUpdateAccount sampleStakingParams 1000 0 sampleFrom samplePub 499 0 true
      = (some .BelowMinimumStake, NewImpawnImpl) :=
  ⟨(minimum_stake_boundary sampleStakingParams NewImpawnImpl 1000 0 sampleFrom samplePub 0 true
      (by decide) (by decide)).1,
   (minimum_stake_boundary sampleStakingParams NewImpawnImpl 1000 0 sampleFrom samplePub 0 true
      (by decide) (by decide)).2.2⟩

/-- C8: whenever `InsertOrUpdateAccount` or `Withdraw` fails, with
`BelowMinimumStake`, `InvalidPublicKey`, `LockedStake` or any other error, the
ledger after the call is the ledger before the call. -/
theorem rejected_staking_input_is_atomic (p : StakingParams) (l : ImpawnImpl)
    (epoch round : Nat) (address : Address) (publicKey : Bytes) (depositValue fee : Nat)
    (isDelegate : Bool) (currentHeight amount : Nat) (err : StakingError) :
    ((l.InsertOrUpdateAccount p epoch round address publicKey depositValue fee isDelegate).1
        = some err →
      (l.InsertOrUpdateAccount p epoch round address publicKey depositValue fee isDelegate).2
        = l) ∧
    ((l.Withdraw currentHeight address amount).1 = some err →
      (l.Withdraw currentHeight address amount).2 = l) := by
  constructor
  · unfold ImpawnImpl.InsertOrUpdateAccount
    split_ifs
    · intro _; rfl
    · intro _; rfl
    · cases l.accounts.find? (fun a => decide (a.address = address)) <;> simp
  · unfold ImpawnImpl.Withdraw
    cases l.accounts.find? (fun a => decide (a.address = address)) with
    | none => intro _; rfl
    | some a =>
      simp only
      split_ifs
      · intro _; rfl
      · simp

/-- C8 on the ledger of `TestDeposit`: a deposit of 499 fails with
`BelowMinimumStake`, a deposit under a foreign key with `InvalidPublicKey`, a
withdrawal at height 5 (the deposit is locked until 1010) with `LockedStake`,
and each time the ledger is the one before the call. -/
theorem rejected_staking_input_is_atomic_witness :
    (sampleLedger.InsertOrUpdateAccount sampleStakingParams 1000 0 sampleFrom samplePub 499 0
      true).2 = sampleLedger ∧
    (sampleLedger.InsertOrUpdateAccount sampleStakingParams 1000 0 sampleFrom [9, 9] 600 0
      true).2 = sampleLedger ∧
    (sampleLedger.Withdraw 5 sampleFrom 100).2 = sampleLedger :=
  ⟨(rejected_staking_input_is_atomic sampleStakingParams sampleLedger 1000 0 sampleFrom
      samplePub 499 0 true 5 100 .BelowMinimumStake).1 (by decide),
   (rejected_staking_input_is_atomic sampleStakingParams sampleLedger 1000 0 sampleFrom
      [9, 9] 600 0 true 5 100 .InvalidPublicKey).1 (by decide),
   (rejected_staking_input_is_atomic sampleStakingParams sampleLedger 1000 0 sampleFrom
      samplePub 499 0 true 5 100 .LockedStake).2 (by decide)⟩

/-! ## Metered message stream -/

theorem ReadMsg_error_log (pc : ProtocolCodes) (rw : MsgReadWriter) (log : MeterLog)
    (h : (rw.ReadMsg pc log).1.2 ≠ none) : (rw.ReadMsg pc log).2 = log := by
  induction rw with
  | conn next => rfl
  | meteredMsgReadWriter inner version ih =>
    simp only [MsgReadWriter.ReadMsg] at h ⊢
    split_ifs at h ⊢ with herr
    · exact ih herr
    · exact absurd h herr

/-- C9: whenever the wrapped stream's `ReadMsg` returns a non-nil error, the
metered `ReadMsg` returns that same message and error, and no meter is
marked: the marks recorded after the call are those recorded before it. -/
theorem meteredReadMsg_short_circuits (pc : ProtocolCodes) (inner : MsgReadWriter)
    (version : Int) (log : MeterLog) (h : (inner.ReadMsg pc log).1.2 ≠ none) :
    ((MsgReadWriter.meteredMsgReadWriter inner version).ReadMsg pc log).1
      = (inner.ReadMsg pc log).1 ∧
    ((MsgReadWriter.meteredMsgReadWriter inner version).ReadMsg pc log).2 = log := by
  have hlog := ReadMsg_error_log pc inner log h
  simp only [MsgReadWriter.ReadMsg]
  split_ifs with herr
  · exact ⟨rfl, hlog⟩
  · exact absurd h herr

/-- C9 on a stream whose read fails with `EOF`: the metered read returns the
same message and `EOF`, and the meter log stays empty. -/
theorem meteredReadMsg_short_circuits_witness :
    ((MsgReadWriter.meteredMsgReadWriter sampleBrokenConn 63).ReadMsg sampleProtocolCodes []).1
      = (⟨0, 0, []⟩, some "EOF") ∧
    ((MsgReadWriter.meteredMsgReadWriter sampleBrokenConn 63).ReadMsg sampleProtocolCodes []).2
      = [] :=
  meteredReadMsg_short_circuits sampleProtocolCodes sampleBrokenConn 63 [] (by decide)

/-- A successful metered read, by evaluation: a transaction message of 42
bytes marks the transaction packets meter with 1 and the traffic meter with
42. -/
theorem meteredReadMsg_marks_on_success :
    ((newMeteredMsgWriter true sampleTxConn).ReadMsg sampleProtocolCodes []).2
      = [(propTxnInPacketsMeter, 1), (propTxnInTrafficMeter, 42)] := by
  decide

/-- C10: `newMeteredMsgWriter` returns its argument itself when the metrics
system is disabled, and otherwise a `meteredMsgReadWriter` that wraps the
argument and has version 0. -/
theorem newMeteredMsgWriter_spec (rw : MsgReadWriter) :
    newMeteredMsgWriter false rw = rw ∧
    newMeteredMsgWriter true rw = MsgReadWriter.meteredMsgReadWriter rw 0 := by
  constructor <;> rfl

/-! ## Full-node API backend: block lookups -/

theorem headerByNumber_error_nil (rpc : RpcTags) (b : ICEAPIBackend) (blockNr : Int) :
    ∀ r, b.HeaderByNumber rpc blockNr = .returns r → r.2 = none := by
  intro r hr
  unfold ICEAPIBackend.HeaderByNumber at hr
  split_ifs at hr
  · cases hp : b.ice.miner.PendingBlock <;> simp [hp, Block.Header] at hr
    rw [← hr]
  · cases hc : b.ice.blockchain.CurrentBlock <;> simp [hc, Block.Header] at hr
    rw [← hr]
  · simp only [Outcome.returns.injEq] at hr
    rw [← hr]

/-- C11: `HeaderByNumber` never returns an error, and it resolves `pending`
to the header of the miner's pending block, `latest` to the header of the
fast chain's current block, and any other number to the fast chain's header
at `uint64(blockNr)` (the nil header if there is none). -/
theorem headerByNumber_resolves (rpc : RpcTags) (b : ICEAPIBackend) (blockNr : Int) :
    (∀ r, b.HeaderByNumber rpc blockNr = .returns r → r.2 = none) ∧
    (blockNr = rpc.PendingBlockNumber → ∀ block, b.ice.miner.PendingBlock = some block →
      b.HeaderByNumber rpc blockNr = .returns (some block.header, none)) ∧
    (blockNr ≠ rpc.PendingBlockNumber → blockNr = rpc.LatestBlockNumber →
      ∀ block, b.ice.blockchain.CurrentBlock = some block →
        b.HeaderByNumber rpc blockNr = .returns (some block.header, none)) ∧
    (blockNr ≠ rpc.PendingBlockNumber → blockNr ≠ rpc.LatestBlockNumber →
      b.HeaderByNumber rpc blockNr
        = .returns (b.ice.blockchain.GetHeaderByNumber (uint64 blockNr), none)) := by
  refine ⟨headerByNumber_error_nil rpc b blockNr, ?_, ?_, ?_⟩
  · intro hp block hblock
    simp [ICEAPIBackend.HeaderByNumber, hp, hblock, Block.Header]
  · intro hp hl block hblock
    simp only [ICEAPIBackend.HeaderByNumber, hp, if_false, hblock, Block.Header]
    simp [hl]
  · intro hp hl
    simp [ICEAPIBackend.HeaderByNumber, hp, hl]

/-- C11 on the sample node: `pending` gives the header of block 11, which
the miner is working on, `latest` the header of the current block 10, the
number 3 the header at height 3, each with a nil error. -/
theorem headerByNumber_resolves_witness :
    sampleBackend.HeaderByNumber sampleRpcTags (-2)
      = .returns (some (sampleBlock 11).header, none) ∧
    sampleBackend.HeaderByNumber sampleRpcTags (-1)
      = .returns (some (sampleBlock 10).header, none) ∧
    sampleBackend.HeaderByNumber sampleRpcTags 3
      = .returns (sampleBlockChain.GetHeaderByNumber (uint64 3), none) :=
  ⟨(headerByNumber_resolves sampleRpcTags sampleBackend (-2)).2.1 (by decide) _ rfl,
   (headerByNumber_resolves sampleRpcTags sampleBackend (-1)).2.2.1 (by decide) (by decide) _ rfl,
   (headerByNumber_resolves sampleRpcTags sampleBackend 3).2.2.2 (by decide) (by decide)⟩

/-- C12: `BlockByNumber` returns the fast chain's current block for `pending`
exactly as for `latest`, the fast block at `uint64(blockNr)` for any other
number, and a nil error throughout. -/
theorem blockByNumber_pending_is_latest (rpc : RpcTags) (b : ICEAPIBackend) (blockNr : Int) :
    b.BlockByNumber rpc rpc.PendingBlockNumber = b.BlockByNumber rpc rpc.LatestBlockNumber ∧
    b.BlockByNumber rpc rpc.PendingBlockNumber = (b.ice.blockchain.CurrentBlock, none) ∧
    b.BlockByNumber rpc blockNr =
      (if blockNr = rpc.PendingBlockNumber ∨ blockNr = rpc.LatestBlockNumber then
        b.ice.blockchain.CurrentBlock
      else b.ice.blockchain.GetBlockByNumber (uint64 blockNr), none) ∧
    (b.BlockByNumber rpc blockNr).2 = none := by
  refine ⟨?_, ?_, ?_, ?_⟩
  · simp [ICEAPIBackend.BlockByNumber]
  · simp [ICEAPIBackend.BlockByNumber]
  · unfold ICEAPIBackend.BlockByNumber
    by_cases hp : blockNr = rpc.PendingBlockNumber
    · simp [hp]
    · by_cases hl : blockNr = rpc.LatestBlockNumber
      · simp [hl]
      · simp [hp, hl]
  · unfold ICEAPIBackend.BlockByNumber
    split_ifs <;> rfl

/-- C13 fails on the code: on the sample node, whose miner is working on
block 11 on top of the current block 10, `StateAndHeaderByNumber(pending)`
returns the chain's own state and the header of the current block 10, while
`HeaderByNumber(pending)` returns the header of the pending block 11. -/
theorem stateAndHeaderByNumber_pending_is_current_block :
    sampleBackend.StateAndHeaderByNumber sampleRpcTags sampleRpcTags.PendingBlockNumber
      = .returns (sampleBlockChain.State.1, some (sampleBlock 10).header, none) ∧
    sampleBackend.HeaderByNumber sampleRpcTags sampleRpcTags.PendingBlockNumber
      = .returns (some (sampleBlock 11).header, none) ∧
    (sampleBlock 10).header ≠ (sampleBlock 11).header := by
  decide

theorem stateAndHeaderByNumber_shape (rpc : RpcTags) (b : ICEAPIBackend) (blockNr : Int)
    (err : String) :
    b.StateAndHeaderByNumber rpc blockNr ≠ .returns (none, none, some err) := by
  unfold ICEAPIBackend.StateAndHeaderByNumber
  split_ifs with hp
  · cases b.ice.blockchain.CurrentBlock <;> simp [Block.Header]
  · have herr := (headerByNumber_error_nil rpc b blockNr)
    cases hh : b.HeaderByNumber rpc blockNr with
    | panics => simp
    | returns r =>
      obtain ⟨header, e⟩ := r
      have he : e = none := herr (header, e) hh
      subst he
      cases header <;> simp

theorem stateAndHeaderByHash_shape (b : ICEAPIBackend) (hash : Hash) :
    b.StateAndHeaderByHash hash
      ≠ (none, none, some "invalid arguments; neither block nor hash specified") := by
  unfold ICEAPIBackend.StateAndHeaderByHash ICEAPIBackend.HeaderByHash
  cases b.ice.blockchain.GetHeaderByHash hash with
  | none => simp
  | some header => simp

/-- C14: `StateAndHeaderByNumberOrHash` returns what `StateAndHeaderByNumber`
returns when the argument carries a block number, otherwise what
`StateAndHeaderByHash` returns when it carries a hash, and it returns the nil
state and nil header with the error `invalid arguments; neither block nor
hash specified` exactly when the argument carries neither. -/
theorem stateAndHeaderByNumberOrHash_dispatch (rpc : RpcTags) (b : ICEAPIBackend)
    (blockNrOrHash : BlockNumberOrHash) :
    (∀ blockNr, blockNrOrHash.Number = some blockNr →
      b.StateAndHeaderByNumberOrHash rpc blockNrOrHash = b.StateAndHeaderByNumber rpc blockNr) ∧
    (blockNrOrHash.Number = none → ∀ hash, blockNrOrHash.Hash = some hash →
      b.StateAndHeaderByNumberOrHash rpc blockNrOrHash
        = .returns (b.StateAndHeaderByHash hash)) ∧
    (b.StateAndHeaderByNumberOrHash rpc blockNrOrHash
        = .returns (none, none, some "invalid arguments; neither block nor hash specified") ↔
      blockNrOrHash.Number = none ∧ blockNrOrHash.Hash = none) := by
  refine ⟨?_, ?_, ?_⟩
  · intro blockNr hn
    simp [ICEAPIBackend.StateAndHeaderByNumberOrHash, hn]
  · intro hn hash hh
    simp [ICEAPIBackend.StateAndHeaderByNumberOrHash, hn, hh]
  · unfold ICEAPIBackend.StateAndHeaderByNumberOrHash
    cases hn : blockNrOrHash.Number with
    | some blockNr =>
      simp only [reduceCtorEq, false_and, iff_false]
      exact stateAndHeaderByNumber_shape rpc b blockNr _
    | none =>
      cases hh : blockNrOrHash.Hash with
      | some hash =>
        simp only [reduceCtorEq, and_false, iff_false, Outcome.returns.injEq]
        exact stateAndHeaderByHash_shape b hash
      | none => simp

/-- C14 on the sample node: a number, a hash, and neither. -/
theorem stateAndHeaderByNumberOrHash_dispatch_witness :
    sampleBackend.StateAndHeaderByNumberOrHash sampleRpcTags ⟨some 3, some [4]⟩
      = sampleBackend.StateAndHeaderByNumber sampleRpcTags 3 ∧
    sampleBackend.StateAndHeaderByNumberOrHash sampleRpcTags ⟨none, some [4]⟩
      = .returns (sampleBackend.StateAndHeaderByHash [4]) ∧
    sampleBackend.StateAndHeaderByNumberOrHash sampleRpcTags ⟨none, none⟩
      = .returns (none, none, some "invalid arguments; neither block nor hash specified") :=
  ⟨(stateAndHeaderByNumberOrHash_dispatch sampleRpcTags sampleBackend ⟨some 3, some [4]⟩).1 3 rfl,
   (stateAndHeaderByNumberOrHash_dispatch sampleRpcTags sampleBackend ⟨none, some [4]⟩).2.1 rfl
     [4] rfl,
   (stateAndHeaderByNumberOrHash_dispatch sampleRpcTags sampleBackend ⟨none, none⟩).2.2.mpr
     ⟨rfl, rfl⟩⟩

/-- Lookup by hash reports an unknown block: for a hash under which the fast
chain has no header, `StateAndHeaderByHash` returns the nil state, the nil
header and the error `header for hash not found`. -/
theorem stateAndHeaderByHash_unknown (b : ICEAPIBackend) (hash : Hash)
    (h : b.ice.blockchain.GetHeaderByHash hash = none) :
    b.StateAndHeaderByHash hash = (none, none, some "header for hash not found") := by
  simp [ICEAPIBackend.StateAndHeaderByHash, ICEAPIBackend.HeaderByHash, h]

/-- C15 fails on the code in its second half: the sample chain ends at block
10 and has no header at height 999, and `StateAndHeaderByNumber(999)` returns
the nil state and the nil header with a nil error. -/
theorem stateAndHeaderByNumber_unknown_returns_nil_error :
    sampleBackend.ice.blockchain.GetHeaderByNumber (uint64 999) = none ∧
    sampleBackend.StateAndHeaderByNumber sampleRpcTags 999 = .returns (none, none, none) := by
  decide

/-! ## Light-client API backend -/

/-- C16: on the light backend every snail-chain and committee query returns
nil results together with the error `NotSupportOnLes`, whatever the argument
and whatever the state of the backend. -/
theorem lesApiBackend_not_supported (b : LesApiBackend) (blockNr id : Int) (hash : Hash)
    (blockNrOrHash : BlockNumberOrHash) :
    b.SnailHeaderByNumber blockNr = (none, some NotSupportOnLes) ∧
    b.SnailBlockByNumber blockNr = (none, some NotSupportOnLes) ∧
    b.GetFruit hash = (none, some NotSupportOnLes) ∧
    b.GetSnailBlock hash = (none, some NotSupportOnLes) ∧
    b.StateAndHeaderByNumberOrHash blockNrOrHash = (none, none, some NotSupportOnLes) ∧
    b.StateAndHeaderByHash hash = (none, none, some NotSupportOnLes) ∧
    b.GetCommittee id = (none, some NotSupportOnLes) :=
  ⟨rfl, rfl, rfl, rfl, rfl, rfl, rfl⟩

/-! ## Full-node construction -/

/-- C17: for every configuration whose sync mode is `LightSync`, and for
every configuration whose sync mode is not valid, `New` returns a nil
Icechain and a non-nil error, and it has opened no database. -/
theorem New_rejects_unusable_sync_mode (modes : SyncModes)
    (assemble : Config → Option Database → Option Icechain × Option String)
    (ctx : ServiceContext) (config : Config)
    (h : config.SyncMode = modes.LightSync ∨ modes.IsValid config.SyncMode = false) :
    (New modes assemble ctx config).1.1 = none ∧
    (New modes assemble ctx config).1.2 ≠ none ∧
    (New modes assemble ctx config).2 = [] := by
  unfold New
  by_cases hl : config.SyncMode = modes.LightSync
  · simp [hl]
  · have hv : modes.IsValid config.SyncMode = false := by
      rcases h with h | h
      · exact absurd h hl
      · exact h
    simp [hl, hv]

/-- C17 on the sample configurations: light sync (mode 3) and the invalid
mode 9 are refused before any database is opened. -/
theorem New_rejects_unusable_sync_mode_witness :
    New sampleSyncModes sampleAssemble sampleServiceContext sampleLightConfig
      = ((none, some "can't run ice.Icechain in light sync mode, use les.LightIcechain"), []) ∧
    (New sampleSyncModes sampleAssemble sampleServiceContext sampleInvalidConfig).1.1 = none ∧
    (New sampleSyncModes sampleAssemble sampleServiceContext sampleInvalidConfig).1.2 ≠ none ∧
    (New sampleSyncModes sampleAssemble sampleServiceContext sampleInvalidConfig).2 = [] :=
  ⟨rfl,
   New_rejects_unusable_sync_mode sampleSyncModes sampleAssemble sampleServiceContext
     sampleInvalidConfig (Or.inr (by decide))⟩

/-- A usable sync mode does reach the database: in full sync mode `New` opens
`chaindata`. -/
theorem New_full_sync_opens_chaindata :
    (New sampleSyncModes sampleAssemble sampleServiceContext sampleFullConfig).2
      = ["chaindata"] := by
  decide

/-! ## Block-test header JSON codec -/

theorem storeMember_of_failure (c : HeaderCodecs) (st : DecodeState) (key : String)
    (value : JsonValue) (err : String) (h : memberStatus c key value = .failure err) :
    storeMember c st key value = .error err := by
  unfold memberStatus at h
  unfold storeMember
  cases hf : fieldFor c.equalFold key with
  | none => simp [hf] at h
  | some name =>
    simp only [hf] at h ⊢
    by_cases hnull : value = .null
    · simp [hnull] at h
    · simp only [hnull, if_false] at h ⊢
      cases hd : decodeKind c (kindOf name) name value with
      | ok v => simp [hd] at h
      | saved e => simp [hd] at h
      | failed e =>
        simp only [hd, MemberStatus.failure.injEq] at h
        simp [h]

theorem storeMember_of_typeError (c : HeaderCodecs) (st : DecodeState) (key : String)
    (value : JsonValue) (err : String) (h : memberStatus c key value = .typeError err) :
    storeMember c st key value
      = .ok { target := st.target, savedError := saveError st.savedError err } := by
  unfold memberStatus at h
  unfold storeMember
  cases hf : fieldFor c.equalFold key with
  | none => simp [hf] at h
  | some name =>
    simp only [hf] at h ⊢
    by_cases hnull : value = .null
    · simp [hnull] at h
    · simp only [hnull, if_false] at h ⊢
      cases hd : decodeKind c (kindOf name) name value with
      | ok v => simp [hd] at h
      | failed e => simp [hd] at h
      | saved e =>
        simp only [hd, MemberStatus.typeError.injEq] at h
        simp [h]

theorem storeMember_of_fine (c : HeaderCodecs) (st : DecodeState) (key : String)
    (value : JsonValue) (h : memberStatus c key value = .fine) :
    ∃ next, storeMember c st key value = .ok next ∧ next.savedError = st.savedError ∧
      ∀ name, next.target name =
        if fieldFor c.equalFold key = some name then
          (if value = .null then none else (decodeKind c (kindOf name) name value).value?)
        else st.target name := by
  unfold memberStatus at h
  unfold storeMember
  cases hf : fieldFor c.equalFold key with
  | none => exact ⟨st, rfl, rfl, fun name => by simp⟩
  | some field =>
    simp only [hf] at h ⊢
    by_cases hnull : value = .null
    · refine ⟨{ target := setField st.target field none, savedError := st.savedError },
        by simp only [hnull, if_true], rfl, ?_⟩
      intro name
      by_cases hn : field = name
      · subst hn; simp [setField, hnull]
      · have hn2 : ¬ name = field := fun h2 => hn h2.symm
        simp [setField, hn, hn2]
    · simp only [hnull, if_false] at h ⊢
      cases hd : decodeKind c (kindOf field) field value with
      | saved e => simp [hd] at h
      | failed e => simp [hd] at h
      | ok v =>
        refine ⟨{ target := setField st.target field (some v), savedError := st.savedError },
          rfl, rfl, ?_⟩
        intro name
        by_cases hn : field = name
        · subst hn; simp [setField, hd, Decoded.value?]
        · have hn2 : ¬ name = field := fun h2 => hn h2.symm
          simp [setField, hn, hn2]

theorem decodeMembers_failure (c : HeaderCodecs) (members : List (String × JsonValue))
    (err : String) :
    ∀ st, firstFailure c members = some err → decodeMembers c members st = .error err := by
  induction members with
  | nil => intro st h; simp [firstFailure] at h
  | cons member rest ih =>
    obtain ⟨key, value⟩ := member
    intro st h
    simp only [firstFailure] at h
    simp only [decodeMembers]
    cases hs : memberStatus c key value with
    | failure e =>
      simp only [hs, Option.some.injEq] at h
      subst h
      rw [storeMember_of_failure c st key value e hs]
    | typeError e =>
      simp only [hs] at h
      rw [storeMember_of_typeError c st key value e hs]
      exact ih _ h
    | fine =>
      simp only [hs] at h
      obtain ⟨next, hnext, _, _⟩ := storeMember_of_fine c st key value hs
      rw [hnext]
      exact ih _ h

theorem decodeMembers_ok (c : HeaderCodecs) (members : List (String × JsonValue)) :
    ∀ st, firstFailure c members = none →
      ∃ final, decodeMembers c members st = .ok final ∧
        final.savedError =
          (match st.savedError with
           | some first => some first
           | none => firstTypeError c members) ∧
        (firstTypeError c members = none → ∀ name, final.target name =
          match suppliedValue c.equalFold name members with
          | none => st.target name
          | some value =>
            if value = .null then none else (decodeKind c (kindOf name) name value).value?) := by
  induction members with
  | nil =>
    intro st _
    refine ⟨st, rfl, ?_, fun _ name => rfl⟩
    cases st.savedError <;> rfl
  | cons member rest ih =>
    obtain ⟨key, value⟩ := member
    intro st h
    simp only [firstFailure] at h
    simp only [decodeMembers, firstTypeError, suppliedValue]
    cases hs : memberStatus c key value with
    | failure e => simp [hs] at h
    | typeError e =>
      simp only [hs] at h ⊢
      rw [storeMember_of_typeError c st key value e hs]
      obtain ⟨final, hfinal, hsaved, _⟩ := ih _ h
      refine ⟨final, hfinal, ?_, fun hnone => absurd hnone (by simp)⟩
      rw [hsaved]
      cases st.savedError <;> rfl
    | fine =>
      simp only [hs] at h ⊢
      obtain ⟨next, hnext, hnsaved, hntarget⟩ := storeMember_of_fine c st key value hs
      rw [hnext]
      obtain ⟨final, hfinal, hsaved, htarget⟩ := ih next h
      refine ⟨final, hfinal, ?_, ?_⟩
      · rw [hsaved, hnsaved]
      · intro hnone name
        rw [htarget hnone name, hntarget name]
        cases suppliedValue c.equalFold name rest with
        | some later => rfl
        | none =>
          by_cases hf : fieldFor c.equalFold key = some name
          · simp [hf]
          · simp [hf]

theorem jsonUnmarshal_object_error (c : HeaderCodecs) (members : List (String × JsonValue))
    (err : String) (h : decodingError c (.object members) = some err) :
    jsonUnmarshal c (.object members) = .error err := by
  simp only [decodingError] at h
  simp only [jsonUnmarshal]
  cases hf : firstFailure c members with
  | some e =>
    simp only [hf, Option.some.injEq] at h
    subst h
    rw [decodeMembers_failure c members e _ hf]
  | none =>
    simp only [hf] at h
    obtain ⟨final, hfinal, hsaved, _⟩ := decodeMembers_ok c members
      { target := fun _ => none, savedError := none } hf
    simp only at hsaved
    simp only [hfinal, hsaved, h]

theorem jsonUnmarshal_object_ok (c : HeaderCodecs) (members : List (String × JsonValue))
    (h : decodingError c (.object members) = none) :
    ∃ target, jsonUnmarshal c (.object members) = .ok (decOf target) ∧
      ∀ name, target name = decodedValue c name members := by
  simp only [decodingError] at h
  cases hf : firstFailure c members with
  | some e => simp [hf] at h
  | none =>
    simp only [hf] at h
    obtain ⟨final, hfinal, hsaved, htarget⟩ := decodeMembers_ok c members
      { target := fun _ => none, savedError := none } hf
    refine ⟨final.target, ?_, ?_⟩
    · simp only [jsonUnmarshal, hfinal]
      simp only at hsaved
      rw [hsaved, h]
    · intro name
      rw [htarget h name]
      unfold decodedValue
      cases suppliedValue c.equalFold name members <;> rfl

theorem assign_hash (c : HeaderCodecs) (name : String) (old : GoIce.Hash)
    (members : List (String × JsonValue)) (hk : kindOf name = .hash) :
    assignField id old ((decodedValue c name members).bind FieldValue.asBytes)
      = keptOrDecoded (c.decodeHash name) id old (suppliedValue c.equalFold name members) := by
  unfold decodedValue keptOrDecoded
  cases suppliedValue c.equalFold name members with
  | none => rfl
  | some value =>
    by_cases hnull : value = .null
    · simp [hnull, assignField]
    · simp only [hnull, if_false, hk, decodeKind]
      cases c.decodeHash name value <;> rfl

theorem assign_bloom (c : HeaderCodecs) (name : String) (old : GoIce.Bloom)
    (members : List (String × JsonValue)) (hk : kindOf name = .bloom) :
    assignField id old ((decodedValue c name members).bind FieldValue.asBytes)
      = keptOrDecoded (c.decodeBloom name) id old (suppliedValue c.equalFold name members) := by
  unfold decodedValue keptOrDecoded
  cases suppliedValue c.equalFold name members with
  | none => rfl
  | some value =>
    by_cases hnull : value = .null
    · simp [hnull, assignField]
    · simp only [hnull, if_false, hk, decodeKind]
      cases c.decodeBloom name value <;> rfl

theorem assign_big (c : HeaderCodecs) (name : String) (old : Option Int)
    (members : List (String × JsonValue)) (hk : kindOf name = .big) :
    assignField some old ((decodedValue c name members).bind FieldValue.asBig)
      = keptOrDecoded (c.decodeBig name) some old (suppliedValue c.equalFold name members) := by
  unfold decodedValue keptOrDecoded
  cases suppliedValue c.equalFold name members with
  | none => rfl
  | some value =>
    by_cases hnull : value = .null
    · simp [hnull, assignField]
    · simp only [hnull, if_false, hk, decodeKind]
      cases c.decodeBig name value <;> rfl

theorem assign_bytes (c : HeaderCodecs) (name : String) (old : Bytes)
    (members : List (String × JsonValue)) (hk : kindOf name = .bytes) :
    assignField id old ((decodedValue c name members).bind FieldValue.asBytes)
      = keptOrDecoded (c.decodeBytes name) id old (suppliedValue c.equalFold name members) := by
  unfold decodedValue keptOrDecoded
  cases suppliedValue c.equalFold name members with
  | none => rfl
  | some value =>
    by_cases hnull : value = .null
    · simp [hnull, assignField]
    · simp only [hnull, if_false, hk, decodeKind]
      cases c.decodeBytes name value <;> rfl

theorem assign_uint64 (c : HeaderCodecs) (name : String) (old : Nat)
    (members : List (String × JsonValue)) (hk : kindOf name = .uint64) :
    assignField id old ((decodedValue c name members).bind FieldValue.asUint)
      = keptOrDecoded (c.decodeUint64 name) id old (suppliedValue c.equalFold name members) := by
  unfold decodedValue keptOrDecoded
  cases suppliedValue c.equalFold name members with
  | none => rfl
  | some value =>
    by_cases hnull : value = .null
    · simp [hnull, assignField]
    · simp only [hnull, if_false, hk, decodeKind]
      cases c.decodeUint64 name value <;> rfl

/-! ### The text form of `math.HexOrDecimal256` -/

theorem digitValue_hexDigit : ∀ d, d < 16 → digitValue (hexDigit d) = some d := by
  decide

theorem hexDigit_not_sign : ∀ d, d < 16 → hexDigit d ≠ '-' ∧ hexDigit d ≠ '+' := by
  decide

theorem hexDigitsLE_lt (fuel : Nat) : ∀ n, ∀ d ∈ hexDigitsLE fuel n, d < 16 := by
  induction fuel with
  | zero => intro n d hd; simp [hexDigitsLE] at hd
  | succ k ih =>
    intro n d hd
    unfold hexDigitsLE at hd
    split_ifs at hd with hn
    · simp only [List.mem_singleton] at hd
      omega
    · rcases List.mem_cons.mp hd with h | h
      · omega
      · exact ih _ d h

theorem hexDigitsLE_ne_nil (fuel n : Nat) : hexDigitsLE (fuel + 1) n ≠ [] := by
  unfold hexDigitsLE
  split_ifs <;> simp

theorem hexDigitsLE_value (fuel : Nat) : ∀ n, n < fuel →
    (hexDigitsLE fuel n).foldr (fun d acc => d + 16 * acc) 0 = n := by
  induction fuel with
  | zero => intro n h; omega
  | succ k ih =>
    intro n h
    unfold hexDigitsLE
    split_ifs with hn
    · simp
    · have hk : n / 16 < k := by omega
      simp only [List.foldr_cons, ih (n / 16) hk]
      omega

theorem scanDigits_append (base : Nat) (l1 l2 : List Char) :
    ∀ acc, scanDigits base (l1 ++ l2) acc = (scanDigits base l1 acc).bind (scanDigits base l2) := by
  induction l1 with
  | nil => intro acc; rfl
  | cons ch rest ih =>
    intro acc
    simp only [List.cons_append, scanDigits]
    cases digitValue ch with
    | none => rfl
    | some d =>
      simp only
      split_ifs
      · exact ih _
      · rfl

theorem scanDigits_hex (ds : List Nat) (h : ∀ d ∈ ds, d < 16) :
    ∀ acc, scanDigits 16 (ds.reverse.map hexDigit) acc
      = some (acc * 16 ^ ds.length + ds.foldr (fun d a => d + 16 * a) 0) := by
  induction ds with
  | nil => intro acc; simp [scanDigits]
  | cons d rest ih =>
    intro acc
    have hd : d < 16 := h d (List.mem_cons_self d rest)
    have hrest : ∀ x ∈ rest, x < 16 := fun x hx => h x (List.mem_cons_of_mem d hx)
    rw [List.reverse_cons, List.map_append, scanDigits_append, ih hrest acc]
    simp only [List.map_cons, List.map_nil, Option.some_bind, scanDigits,
      digitValue_hexDigit d hd, hd, if_true, List.length_cons, List.foldr_cons]
    congr 1
    ring

theorem scanDigits_formatHex (n : Nat) : scanDigits 16 (formatHex n) 0 = some n := by
  unfold formatHex
  rw [scanDigits_hex _ (hexDigitsLE_lt (n + 1) n) 0, hexDigitsLE_value (n + 1) n (by omega)]
  simp

theorem formatHex_head (n : Nat) : ∃ d rest, d < 16 ∧ formatHex n = hexDigit d :: rest := by
  unfold formatHex
  have hne : (hexDigitsLE (n + 1) n).reverse ≠ [] := by
    simpa using hexDigitsLE_ne_nil n n
  cases hr : (hexDigitsLE (n + 1) n).reverse with
  | nil => exact absurd hr hne
  | cons d rest =>
    refine ⟨d, rest.map hexDigit, ?_, by simp⟩
    have : d ∈ hexDigitsLE (n + 1) n := by
      rw [← List.mem_reverse, hr]
      exact List.mem_cons_self d rest
    exact hexDigitsLE_lt (n + 1) n d this

theorem SetString_formatHex (n : Nat) : SetString (formatHex n) 16 = some (n : Int) := by
  obtain ⟨d, rest, hd, hfmt⟩ := formatHex_head n
  have hscan := scanDigits_formatHex n
  have hsign := hexDigit_not_sign d hd
  unfold SetString
  rw [hfmt] at hscan ⊢
  simp [hsign.1, hsign.2, hscan]

/-- The text form of `math.HexOrDecimal256` reads back what it wrote exactly
for the integers from 0 to 2^256 - 1; the text of a negative integer or of
one of more than 256 bits is refused by `ParseBig256`. -/
theorem ParseBig256_MarshalText (v : Int) :
    ParseBig256 (HexOrDecimal256.MarshalText v)
      = if 0 ≤ v ∧ v < 2 ^ 256 then some v else none := by
  unfold ParseBig256 HexOrDecimal256.MarshalText
  by_cases hneg : v < 0
  · have h0 : ¬ (0 ≤ v) := by omega
    simp [hneg, h0, SetString, scanDigits, digitValue]
  · have h0 : 0 ≤ v := by omega
    have hv : ((v.natAbs : Nat) : Int) = v := Int.natAbs_of_nonneg h0
    simp only [hneg, if_false, List.nil_append, h0, true_and]
    simp only [List.take_succ_cons, List.take_zero, List.drop_succ_cons, List.drop_zero,
      true_or, if_true, SetString_formatHex, reduceCtorEq, if_false, Int.natAbs_ofNat]
    by_cases hbig : 2 ^ 256 ≤ v.natAbs
    · have hlt : ¬ v < 2 ^ 256 := by omega
      rw [if_pos hbig, if_neg hlt]
    · have hlt : v < 2 ^ 256 := by omega
      rw [if_neg hbig, if_pos hlt, hv]

theorem fieldFor_CommitteeHash (equalFold : String → String → Bool) :
    fieldFor equalFold "CommitteeHash" = some "CommitteeHash" := rfl

theorem kindOf_CommitteeHash : kindOf "CommitteeHash" = .hash := rfl

theorem fieldFor_SnailHash (equalFold : String → String → Bool) :
    fieldFor equalFold "SnailHash" = some "SnailHash" := rfl

theorem kindOf_SnailHash : kindOf "SnailHash" = .hash := rfl

theorem fieldFor_SnailNumber (equalFold : String → String → Bool) :
    fieldFor equalFold "SnailNumber" = some "SnailNumber" := rfl

theorem kindOf_SnailNumber : kindOf "SnailNumber" = .big := rfl

theorem fieldFor_Bloom (equalFold : String → String → Bool) :
    fieldFor equalFold "Bloom" = some "Bloom" := rfl

theorem kindOf_Bloom : kindOf "Bloom" = .bloom := rfl

theorem fieldFor_Number (equalFold : String → String → Bool) :
    fieldFor equalFold "Number" = some "Number" := rfl

theorem kindOf_Number : kindOf "Number" = .big := rfl

theorem fieldFor_Hash (equalFold : String → String → Bool) :
    fieldFor equalFold "Hash" = some "Hash" := rfl

theorem kindOf_Hash : kindOf "Hash" = .hash := rfl

theorem fieldFor_ParentHash (equalFold : String → String → Bool) :
    fieldFor equalFold "ParentHash" = some "ParentHash" := rfl

theorem kindOf_ParentHash : kindOf "ParentHash" = .hash := rfl

theorem fieldFor_ReceiptsRoot (equalFold : String → String → Bool) :
    fieldFor equalFold "ReceiptsRoot" = some "ReceiptsRoot" := rfl

theorem kindOf_ReceiptsRoot : kindOf "ReceiptsRoot" = .hash := rfl

theorem fieldFor_StateRoot (equalFold : String → String → Bool) :
    fieldFor equalFold "StateRoot" = some "StateRoot" := rfl

theorem kindOf_StateRoot : kindOf "StateRoot" = .hash := rfl

theorem fieldFor_TransactionsRoot (equalFold : String → String → Bool) :
    fieldFor equalFold "TransactionsRoot" = some "TransactionsRoot" := rfl

theorem kindOf_TransactionsRoot : kindOf "TransactionsRoot" = .hash := rfl

theorem fieldFor_ExtraData (equalFold : String → String → Bool) :
    fieldFor equalFold "ExtraData" = some "ExtraData" := rfl

theorem kindOf_ExtraData : kindOf "ExtraData" = .bytes := rfl

theorem fieldFor_GasLimit (equalFold : String → String → Bool) :
    fieldFor equalFold "GasLimit" = some "GasLimit" := rfl

theorem kindOf_GasLimit : kindOf "GasLimit" = .uint64 := rfl

theorem fieldFor_GasUsed (equalFold : String → String → Bool) :
    fieldFor equalFold "GasUsed" = some "GasUsed" := rfl

theorem kindOf_GasUsed : kindOf "GasUsed" = .uint64 := rfl

theorem fieldFor_Timestamp (equalFold : String → String → Bool) :
    fieldFor equalFold "Timestamp" = some "Timestamp" := rfl

theorem kindOf_Timestamp : kindOf "Timestamp" = .big := rfl

/-- C18, as amended: for every header whose field values survive the JSON
encoding of their types, `MarshalJSON` succeeds and `UnmarshalJSON` of its
output into a zero-valued header succeeds and yields a header equal to the
original in all fourteen fields (big integers by value, the nil pointer
staying nil, `ExtraData` by byte content). -/
theorem btHeader_json_round_trip (c : HeaderCodecs) (h : btHeader) (henc : h.Encodable c) :
    (h.MarshalJSON c).2 = none ∧
    btHeader.UnmarshalJSON c btHeader.zero (h.MarshalJSON c).1 = (none, h) := by
  refine ⟨rfl, ?_⟩
  obtain ⟨vCommitteeHash, vSnailHash, vSnailNumber, vBloom, vNumber, vHash, vParentHash, vReceiptsRoot, vStateRoot, vTransactionsRoot, vExtraData, vGasLimit, vGasUsed, vTimestamp⟩ := h
  obtain ⟨r0, r1, r2, r3, r4, r5, r6, r7, r8, r9, r10, r11, r12, r13⟩ := henc
  simp only [RoundTrips] at r0 r1 r2 r3 r4 r5 r6 r7 r8 r9 r10 r11 r12 r13
  cases vSnailNumber <;> cases vNumber <;> cases vTimestamp <;>
    simp_all [btHeader.UnmarshalJSON, btHeader.MarshalJSON, jsonUnmarshal, decodeMembers,
      storeMember, decodeKind, Decoded.wrap, setField, decOf, FieldValue.asBytes,
      FieldValue.asBig, FieldValue.asUint, encodePointer, assignField, btHeader.zero,
      fieldFor_CommitteeHash, kindOf_CommitteeHash, fieldFor_SnailHash, kindOf_SnailHash, fieldFor_SnailNumber, kindOf_SnailNumber, fieldFor_Bloom, kindOf_Bloom, fieldFor_Number, kindOf_Number, fieldFor_Hash, kindOf_Hash, fieldFor_ParentHash, kindOf_ParentHash, fieldFor_ReceiptsRoot, kindOf_ReceiptsRoot, fieldFor_StateRoot, kindOf_StateRoot, fieldFor_TransactionsRoot, kindOf_TransactionsRoot, fieldFor_ExtraData, kindOf_ExtraData, fieldFor_GasLimit, kindOf_GasLimit, fieldFor_GasUsed, kindOf_GasUsed, fieldFor_Timestamp, kindOf_Timestamp]

/-- Under the sample encodings a big integer survives exactly if it lies
between 0 and 2^256 - 1. -/
theorem sampleBig_roundTrips_iff (name : String) (v : Int) :
    RoundTrips sampleEncodeBig (sampleDecodeBig name) v ↔ 0 ≤ v ∧ v < 2 ^ 256 := by
  unfold RoundTrips sampleEncodeBig sampleDecodeBig
  simp only [ne_eq, reduceCtorEq, not_false_eq_true, true_and, ParseBig256_MarshalText]
  by_cases hv : 0 ≤ v ∧ v < 2 ^ 256
  · rw [if_pos hv]
    exact ⟨fun _ => hv, fun _ => rfl⟩
  · rw [if_neg hv]
    exact ⟨fun h => absurd h (by simp), fun h => absurd h hv⟩

theorem sampleHeader_encodable : sampleHeader.Encodable sampleHeaderCodecs := by
  refine ⟨?_, ?_, ?_, ?_, ?_, ?_, ?_, ?_, ?_, ?_, ?_, ?_, ?_, ?_⟩
  case refine_3 =>
    intro v hv
    have : v = 5 := by simpa [sampleHeader] using hv.symm
    subst this
    exact (sampleBig_roundTrips_iff _ 5).mpr ⟨by omega, by omega⟩
  case refine_5 =>
    intro v hv
    have : v = 0 := by simpa [sampleHeader] using hv.symm
    subst this
    exact (sampleBig_roundTrips_iff _ 0).mpr ⟨by omega, by omega⟩
  case refine_14 =>
    intro v hv
    simp [sampleHeader] at hv
  all_goals exact ⟨by decide, by decide⟩

/-- C18, as amended, on the sample header under the sample encodings. -/
theorem btHeader_json_round_trip_witness :
    sampleHeader.Encodable sampleHeaderCodecs ∧
    (sampleHeader.MarshalJSON sampleHeaderCodecs).2 = none ∧
    btHeader.UnmarshalJSON sampleHeaderCodecs btHeader.zero
      (sampleHeader.MarshalJSON sampleHeaderCodecs).1 = (none, sampleHeader) :=
  ⟨sampleHeader_encodable,
   btHeader_json_round_trip sampleHeaderCodecs sampleHeader sampleHeader_encodable⟩

/-- C18 as stated fails: the header with block number -5 is marshalled with
the member `Number` as `-0x5`, which `ParseBig256` refuses, so decoding the
output into a zero-valued header returns an error and not the header. -/
theorem btHeader_negative_number_does_not_round_trip :
    (sampleNegativeHeader.MarshalJSON sampleHeaderCodecs).2 = none ∧
    (sampleNegativeHeader.MarshalJSON sampleHeaderCodecs).1.members.lookup "Number"
      = some (.string "-0x5") ∧
    (btHeader.UnmarshalJSON sampleHeaderCodecs btHeader.zero
      (sampleNegativeHeader.MarshalJSON sampleHeaderCodecs).1).1
      = some "invalid hex or decimal integer \"-0x5\"" ∧
    btHeader.UnmarshalJSON sampleHeaderCodecs btHeader.zero
      (sampleNegativeHeader.MarshalJSON sampleHeaderCodecs).1 ≠ (none, sampleNegativeHeader) := by
  decide

/-- C19: `UnmarshalJSON` only overwrites what the input supplies. If JSON
decoding fails (on a text rejected outright; else on the first member, in
the order of the text, that makes an unmarshalling method fail; else on the
first type error), that error is returned and the header is unchanged. If it
succeeds, no error is returned and each field holds its previous value if
its key is absent from the input or `null` there, and the value decoded from
the input if the key is present. -/
theorem btHeader_UnmarshalJSON_frame (c : HeaderCodecs) (b : btHeader) (input : JsonDocument) :
    b.UnmarshalJSON c input =
      match decodingError c input with
      | some err => (some err, b)
      | none =>
        (none,
         { CommitteeHash := keptOrDecoded (c.decodeHash "CommitteeHash") id b.CommitteeHash
             (suppliedValue c.equalFold "CommitteeHash" input.members),
           SnailHash := keptOrDecoded (c.decodeHash "SnailHash") id b.SnailHash
             (suppliedValue c.equalFold "SnailHash" input.members),
           SnailNumber := keptOrDecoded (c.decodeBig "SnailNumber") some b.SnailNumber
             (suppliedValue c.equalFold "SnailNumber" input.members),
           Bloom := keptOrDecoded (c.decodeBloom "Bloom") id b.Bloom
             (suppliedValue c.equalFold "Bloom" input.members),
           Number := keptOrDecoded (c.decodeBig "Number") some b.Number
             (suppliedValue c.equalFold "Number" input.members),
           Hash := keptOrDecoded (c.decodeHash "Hash") id b.Hash
             (suppliedValue c.equalFold "Hash" input.members),
           ParentHash := keptOrDecoded (c.decodeHash "ParentHash") id b.ParentHash
             (suppliedValue c.equalFold "ParentHash" input.members),
           ReceiptsRoot := keptOrDecoded (c.decodeHash "ReceiptsRoot") id b.ReceiptsRoot
             (suppliedValue c.equalFold "ReceiptsRoot" input.members),
           StateRoot := keptOrDecoded (c.decodeHash "StateRoot") id b.StateRoot
             (suppliedValue c.equalFold "StateRoot" input.members),
           TransactionsRoot := keptOrDecoded (c.decodeHash "TransactionsRoot") id b.TransactionsRoot
             (suppliedValue c.equalFold "TransactionsRoot" input.members),
           ExtraData := keptOrDecoded (c.decodeBytes "ExtraData") id b.ExtraData
             (suppliedValue c.equalFold "ExtraData" input.members),
           GasLimit := keptOrDecoded (c.decodeUint64 "GasLimit") id b.GasLimit
             (suppliedValue c.equalFold "GasLimit" input.members),
           GasUsed := keptOrDecoded (c.decodeUint64 "GasUsed") id b.GasUsed
             (suppliedValue c.equalFold "GasUsed" input.members),
           Timestamp := keptOrDecoded (c.decodeBig "Timestamp") some b.Timestamp
             (suppliedValue c.equalFold "Timestamp" input.members) }) := by
  cases input with
  | invalid err => rfl
  | null => rfl
  | object members =>
    cases herr : decodingError c (.object members) with
    | some err =>
      simp only [btHeader.UnmarshalJSON, jsonUnmarshal_object_error c members err herr]
    | none =>
      obtain ⟨target, hdec, htarget⟩ := jsonUnmarshal_object_ok c members herr
      simp only [btHeader.UnmarshalJSON, hdec, decOf, htarget, JsonDocument.members]
      rw [← assign_hash c "CommitteeHash" b.CommitteeHash members rfl]
      rw [← assign_hash c "SnailHash" b.SnailHash members rfl]
      rw [← assign_big c "SnailNumber" b.SnailNumber members rfl]
      rw [← assign_bloom c "Bloom" b.Bloom members rfl]
      rw [← assign_big c "Number" b.Number members rfl]
      rw [← assign_hash c "Hash" b.Hash members rfl]
      rw [← assign_hash c "ParentHash" b.ParentHash members rfl]
      rw [← assign_hash c "ReceiptsRoot" b.ReceiptsRoot members rfl]
      rw [← assign_hash c "StateRoot" b.StateRoot members rfl]
      rw [← assign_hash c "TransactionsRoot" b.TransactionsRoot members rfl]
      rw [← assign_bytes c "ExtraData" b.ExtraData members rfl]
      rw [← assign_uint64 c "GasLimit" b.GasLimit members rfl]
      rw [← assign_uint64 c "GasUsed" b.GasUsed members rfl]
      rw [← assign_big c "Timestamp" b.Timestamp members rfl]

/-- The frame property evaluated on two sample inputs. With two members that
do not decode, the error is that of the one that comes first in the text (the
bloom, although the hash is declared first), and the header is unchanged.
With a gas limit under a lower-case key, a `null` number and an unknown key,
the gas limit is overwritten and every other field is kept. -/
theorem btHeader_UnmarshalJSON_samples :
    sampleHeader.UnmarshalJSON sampleHeaderCodecs sampleTwoBadMembers
      = (some "invalid hex string in Bloom", sampleHeader) ∧
    sampleHeader.UnmarshalJSON sampleHeaderCodecs samplePartialInput
      = (none, { sampleHeader with GasLimit := 0 }) := by
  constructor <;> decide

end GoIce
